import Mathlib

set_option maxRecDepth 100000

/-!
Verification of the BCause compiler core (compiler.c, main.c) against its
specification.  The development shallowly embeds the single-pass
translator: the byte-stream lexical primitives, the recursive-descent
statement producer with its label emission, the global/vector/ival
producers, and the command-line argument loop.  Machine integers are
modelled as `Int` with explicit 64-bit wrapping where the C `long`
arithmetic can overflow, and the C idiom `char c = fgetc(in)` is modelled
by an explicit signed-char truncation.
-/

namespace BCause

deriving instance DecidableEq for Except

/-! ## Byte-stream model -/

/-- A source file is a list of bytes (each < 256 for genuine files). -/
abbrev Input := List Nat

/-- Source `fgetc`: the next byte as a C `int`, or -1 (EOF) at end of input. -/
def fgetc : Input → Int × Input
  | [] => (-1, [])
  | b :: rest => ((b : Int), rest)

/-- Storing an `int` into a signed `char`: two's-complement truncation to
8 bits.  In particular byte 0xFF reads back as -1, which the source's
`char c = fgetc(in)` comparisons conflate with EOF. -/
def toChar (x : Int) : Int := (x + 128) % 256 - 128

/-- The idiom `char c = fgetc(in)`, used throughout the source. -/
def fgetcChar (inp : Input) : Int × Input :=
  let r := fgetc inp
  (toChar r.1, r.2)

/-- Model of `ungetc`: pushes back one character, converted to `unsigned char`;
pushing back EOF fails and leaves the stream unchanged. -/
def ungetc (c : Int) (inp : Input) : Input :=
  if c = -1 then inp else (c % 256).toNat :: inp

/-- C `isspace` on the default locale. -/
def isspace (c : Int) : Prop := c = 32 ∨ (9 ≤ c ∧ c ≤ 13)

instance (c : Int) : Decidable (isspace c) := inferInstanceAs (Decidable (_ ∨ _))

/-- C `isdigit`. -/
def isdigit (c : Int) : Prop := 48 ≤ c ∧ c ≤ 57

instance (c : Int) : Decidable (isdigit c) := inferInstanceAs (Decidable (_ ∧ _))

/-- C `isalpha` on the default locale. -/
def isalpha (c : Int) : Prop := (65 ≤ c ∧ c ≤ 90) ∨ (97 ≤ c ∧ c ≤ 122)

instance (c : Int) : Decidable (isalpha c) := inferInstanceAs (Decidable (_ ∨ _))

/-- C `isalnum`. -/
def isalnum (c : Int) : Prop := isalpha c ∨ isdigit c

instance (c : Int) : Decidable (isalnum c) := inferInstanceAs (Decidable (_ ∨ _))

/-! ## 64-bit `long` arithmetic -/

/-- Wrap an integer into the range of a 64-bit two's-complement `long`. -/
def wrap64 (x : Int) : Int := (x + 2 ^ 63) % 2 ^ 64 - 2 ^ 63

/-- Shift `c << k` at 64-bit width. -/
def shl64 (c : Int) (k : Nat) : Int := wrap64 (c * 2 ^ k)

/-- Bitwise `a | b` at 64-bit width (or of the two's-complement images). -/
def or64 (a b : Int) : Int :=
  wrap64 (Int.ofNat (((a % 2 ^ 64).toNat) ||| ((b % 2 ^ 64).toNat)))

/-- Wrap an integer into the range of a 32-bit two's-complement `int`. -/
def wrap32 (x : Int) : Int := (x + 2 ^ 31) % 2 ^ 32 - 2 ^ 31

/-- The shift `c << (i * 8)` of compiler.c:255: `c` is a `char` promoted to
a 32-bit `int`, so the shift happens at 32-bit width; for counts 32-56 this
is undefined behaviour, resolved on the x86-64 target (the one the program
is written for) by the hardware masking of the variable shift count to its
low five bits, so those counts wrap around to 0-24.  The 32-bit result is
sign-extended when OR-ed into the 64-bit accumulator. -/
def shlChar (c : Int) (k : Nat) : Int := wrap32 (c * 2 ^ (k % 32))

/-! ## Lexical primitives (compiler.c:173-264) -/

/-- Source `whitespace` (compiler.c:173): discard blanks, push back the
first non-blank.  A byte reading as EOF in a `char` ends the loop with the
byte consumed. -/
def whitespace : Input → Input
  | [] => []
  | b :: rest =>
    let c := toChar (b : Int)
    if c = -1 then rest
    else if isspace c then whitespace rest
    else ungetc c rest

/-- The reading loop of `identifier` (compiler.c:191-197): the buffer starts
empty, `read` counts accepted bytes. -/
def identLoop : Input → Nat → String → Nat × String × Input
  | [], read, buf => (read, buf, [])
  | b :: rest, read, buf =>
    let c := toChar (b : Int)
    if c = -1 then (read, buf, rest)
    else if (read = 0 ∧ ¬ isalpha c) ∨ ¬ isalnum c then (read, buf, ungetc c rest)
    else identLoop rest (read + 1) (buf.push (Char.ofNat c.toNat))

/-- Source `identifier` (compiler.c:183): skip blanks, then read a letter
followed by alphanumerics; returns the number of bytes read and the buffer. -/
def identifier (inp : Input) : Nat × String × Input :=
  identLoop (whitespace inp) 0 ""

/-- The reading loop of `number` (compiler.c:208-220): accumulate decimal
digits into a wrapping `long`; on a non-digit push it back and return the
accumulator; on (apparent) EOF return the EOF sentinel -1 when no digit was
read, the accumulator otherwise. -/
def numLoop : Input → Nat → Int → Int × Input
  | [], read, num => (if read = 0 then -1 else num, [])
  | b :: rest, read, num =>
    let c := toChar (b : Int)
    if c = -1 then (if read = 0 then -1 else num, rest)
    else if ¬ isdigit c then (num, ungetc c rest)
    else numLoop rest (read + 1) (wrap64 (wrap64 (num * 10) + (c - 48)))

/-- Source `number` (compiler.c:202). -/
def number (inp : Input) : Int × Input := numLoop (whitespace inp) 0 0

/-- The escape-selector table of `character` (compiler.c:233-253):
`*0`/`*e` give NUL, `*(` `*)` `**` `*'` `*"` give the literal character,
`*t` TAB, `*n` LF; anything else is fatal. -/
def escDecode (c : Int) : Option Int :=
  if c = 48 ∨ c = 101 then some 0
  else if c = 40 ∨ c = 41 ∨ c = 42 ∨ c = 39 ∨ c = 34 then some c
  else if c = 116 then some 9
  else if c = 110 then some 10
  else none

/-- The loop of `character` (compiler.c:228-256).  `n` counts the remaining
iterations (`word_size - i`), `i` is the loop index, `c` the C variable `c`
carried across iterations, `value` the accumulator.  When `c` is `*` from
the previous iteration no new byte is read and the quote test is skipped;
otherwise a byte is read and a quote ends the literal.  A (possibly just
read) `*` consumes the next byte as an escape selector.  Each character is
packed with the promoted 32-bit shift `shlChar` (compiler.c:255).  After
`word_size` iterations the next byte must be the closing quote
(compiler.c:258). -/
def charLoop : Nat → Nat → Input → Int → Int → Except String (Int × Input)
  | 0, _, inp, _, value =>
    let r := fgetc inp
    if r.1 ≠ 39 then .error "unclosed char literal\n" else .ok (value, r.2)
  | n + 1, i, inp, c, value =>
    let s := if c ≠ 42 then fgetcChar inp else (c, inp)
    if s.1 = 39 ∧ c ≠ 42 then .ok (value, s.2)
    else if s.1 = 42 then
      let t := fgetcChar s.2
      match escDecode t.1 with
      | none => .error "undefined escape character\n"
      | some c2 => charLoop n (i + 1) t.2 c2 (or64 value (shlChar c2 (8 * i)))
    else charLoop n (i + 1) s.2 s.1 (or64 value (shlChar s.1 (8 * i)))

/-- Source `character` (compiler.c:223): called just after the opening
quote; `wordSize` iterations, then a required closing quote. -/
def character (wordSize : Nat) (inp : Input) : Except String (Int × Input) :=
  charLoop wordSize 0 inp 0 0

/-! ## Emitted assembly -/

/-- The label definitions the emitter can print, kept structured: each
constructor records exactly the data the corresponding fprintf renders
(statement id, case value, function name, user label name, symbol name). -/
inductive Label
  | lelse (id : Int)
  | lend (id : Int)
  | lstart (id : Int)
  | lcmp (id : Int)
  | lstmts (id : Int)
  | lcase (sid : Int) (v : Int)
  | lreturn (fn : String)
  | llabel (name : String)
  | sym (name : String)
deriving DecidableEq, Repr

/-- One emitted assembly line: either a plain instruction/directive line or
a label definition. -/
inductive Emit
  | text (s : String)
  | label (l : Label)
deriving DecidableEq, Repr

/-- printf `%lu` of a 64-bit `long`. -/
def unsStr (x : Int) : String := toString ((x % (2 ^ 64 : Int)).toNat)

/-- printf `%ld` of a 64-bit `long`. -/
def sgnStr (x : Int) : String := toString x

/-- How each label definition is rendered.  The source prints if/while ids
with `%lu` and the switch family with `%ld` (both agree on the nonnegative
ids actually generated); case labels are printed `%ld.%ld`
(compiler.c:562). -/
def Label.render : Label → String
  | .lelse id => s!".L.else.{unsStr id}"
  | .lend id => s!".L.end.{unsStr id}"
  | .lstart id => s!".L.start.{unsStr id}"
  | .lcmp id => s!".L.cmp.{sgnStr id}"
  | .lstmts id => s!".L.stmts.{sgnStr id}"
  | .lcase sid v => s!".L.case.{sgnStr sid}.{sgnStr v}"
  | .lreturn fn => s!".L.return.{fn}"
  | .llabel name => s!".L.label.{name}"
  | .sym name => name

/-- The registers of compiler.c:22-39. -/
inductive AsmRegister
  | RAX | RBX | RCX | RDX | RDI | RSI | RBP | RSP
  | R8 | R9 | R10 | R11 | R12 | R13 | R14 | R15
deriving DecidableEq, Repr

/-- compiler.c:41-62. -/
def strregister : AsmRegister → String
  | .RAX => "%rax"
  | .RBX => "%rbx"
  | .RCX => "%rcx"
  | .RDX => "%rdx"
  | .RDI => "%rdi"
  | .RSI => "%rsi"
  | .RBP => "%rbp"
  | .RSP => "%rsp"
  | .R8 => "%r8"
  | .R9 => "%r9"
  | .R10 => "%r10"
  | .R11 => "%r11"
  | .R12 => "%r12"
  | .R13 => "%r13"
  | .R14 => "%r14"
  | .R15 => "%r15"

/-- ASSERT_CHAR (compiler.c:16): read one byte (compared as `int`, no char
truncation) and require it to equal `expect`, else fail with `msg`. -/
def assertChar (inp : Input) (expect : Int) (msg : String) : Except String Input :=
  let r := fgetc inp
  if r.1 ≠ expect then .error msg else .ok r.2

/-! ## Expression producer (compiler.c:372-404) -/

/-- Source `expression`: a character literal or a decimal integer into
`reg`; zero uses the xor idiom; the value is printed with `%lu`. -/
def expression (wordSize : Nat) (reg : AsmRegister) (inp : Input) :
    Except String (List Emit × Input) :=
  let s := fgetcChar (whitespace inp)
  if s.1 = 39 then
    match character wordSize s.2 with
    | .error e => .error e
    | .ok (value, i2) =>
      if value ≠ 0 then .ok ([.text s!"  mov ${unsStr value}, {strregister reg}"], i2)
      else .ok ([.text s!"  xor {strregister reg}, {strregister reg}"], i2)
  else if s.1 = -1 then .error "unexpected end of file, expect expression"
  else if isdigit s.1 then
    let r := number (ungetc s.1 s.2)
    if r.1 ≠ 0 then .ok ([.text s!"  mov ${unsStr r.1}, {strregister reg}"], r.2)
    else .ok ([.text s!"  xor {strregister reg}, {strregister reg}"], r.2)
  else .error "unexpected character, expect expression\n"

/-! ## Initializer values (compiler.c:266-295) -/

/-- Source `ival`: an identifier, a character literal, or a decimal number,
each emitted as a single `.long` directive (`%s` for the identifier, `%lu`
for the two literal forms). -/
def ival (wordSize : Nat) (inp : Input) : Except String (List Emit × Input) :=
  let s := fgetcChar inp
  if isalpha s.1 then
    let r := identifier (ungetc s.1 s.2)
    if (r.1 : Int) = -1 then .error "unexpected end of file, expect ival\n"
    else .ok ([.text s!"  .long {r.2.1}"], r.2.2)
  else if s.1 = 39 then
    match character wordSize s.2 with
    | .error e => .error e
    | .ok (value, i2) =>
      if value = -1 then .error "unexpected end of file, expect ival\n"
      else .ok ([.text s!"  .long {unsStr value}"], i2)
  else
    let r := number (ungetc s.1 s.2)
    if r.1 = -1 then .error "unexpected end of file, expect ival\n"
    else .ok ([.text s!"  .long {unsStr r.1}"], r.2)

/-- The do-while initializer-list loop shared by `global` (compiler.c:310-
319) and `vector` (compiler.c:357-366): blanks, an ival, blanks, then a
comma continues, a semicolon ends, anything else is fatal. -/
def ivalLoop : (wordSize : Nat) → (fuel : Nat) → (inp : Input) →
    Except String (List Emit × Input)
  | _, 0, _ => .error "out of fuel"
  | wordSize, fuel + 1, inp =>
    match ival wordSize (whitespace inp) with
    | .error e => .error e
    | .ok (out1, i1) =>
      let s := fgetcChar (whitespace i1)
      if s.1 = 44 then
        match ivalLoop wordSize fuel s.2 with
        | .error e => .error e
        | .ok (out2, i2) => .ok (out1 ++ out2, i2)
      else if s.1 = 59 then .ok (out1, s.2)
      else .error "expect ‘;’ at end of declaration\n"

/-- The `.data` record header shared by `global` (compiler.c:299-305) and
`vector` (compiler.c:346-351). -/
def dataHeader (wordSize : Int) (name : String) : List Emit :=
  [.text ".data", .text s!".type {name}, @object",
   .text s!".align {sgnStr wordSize}", .label (.sym name)]

/-- Source `global` (compiler.c:297): header, then either an initializer
list or, when the next byte is `;`, a word-sized zero reservation. -/
def globalDecl (wordSize : Nat) (fuel : Nat) (inp : Input) (name : String) :
    Except String (List Emit × Input) :=
  let header := dataHeader wordSize name
  let s := fgetcChar inp
  if s.1 ≠ 59 then
    match ivalLoop wordSize fuel (ungetc s.1 s.2) with
    | .error e => .error e
    | .ok (lout, i2) => .ok (header ++ lout, i2)
  else .ok (header ++ [.text s!"  .zero {sgnStr (wordSize : Int)}"], s.2)

/-- Source `vector` (compiler.c:325): an optional bracketed size, the
header, then either an initializer list (the size is then unused) or a
`.zero word_size*size` reservation when that product is non-zero. -/
def vector (wordSize : Nat) (fuel : Nat) (inp : Input) (name : String) :
    Except String (List Emit × Input) :=
  let s := fgetcChar (whitespace inp)
  let sizeRes : Except String (Int × Input) :=
    if s.1 ≠ 93 then
      let r := number (ungetc s.1 s.2)
      if r.1 = -1 then .error "unexpected end of file, expect vector size after ‘[’\n"
      else
        let t := fgetc (whitespace r.2)
        if t.1 ≠ 93 then .error "expect ‘]’ after vector size\n"
        else .ok (r.1, t.2)
    else .ok (0, s.2)
  match sizeRes with
  | .error e => .error e
  | .ok (num, i3) =>
    let header := dataHeader wordSize name
    let u := fgetcChar (whitespace i3)
    if u.1 ≠ 59 then
      match ivalLoop wordSize fuel (ungetc u.1 u.2) with
      | .error e => .error e
      | .ok (lout, i4) => .ok (header ++ lout, i4)
    else if wrap64 ((wordSize : Int) * num) ≠ 0 then
      .ok (header ++ [.text s!"  .zero {sgnStr (wrap64 ((wordSize : Int) * num))}"], u.2)
    else .ok (header, u.2)

/-! ## Statement producer (compiler.c:406-584) -/

/-- One push-back step of the else-lookahead failure path
(compiler.c:482-485): bytes that read back as 0 are skipped, and `ungetc`
itself ignores EOF. -/
def pushbackIf (b : Int) (inp : Input) : Input :=
  if b ≠ 0 then ungetc b inp else inp

/-- The failed-lookahead restore loop (compiler.c:482-485), pushing the five
buffer slots back in reverse order. -/
def elseUnread (b0 b1 b2 b3 b4 : Int) (inp : Input) : Input :=
  pushbackIf b0 (pushbackIf b1 (pushbackIf b2 (pushbackIf b3 (pushbackIf b4 inp))))

/-- The else-lookahead (compiler.c:473-486): read up to five bytes matching
`else` plus one non-alphanumeric byte; on success the five bytes (including
the non-alphanumeric one) stay consumed, on failure the bytes read are
pushed back (unread slots hold 0 from the memset and are skipped). -/
def elseMatch (inp : Input) : Bool × Input :=
  let s0 := fgetcChar inp
  if s0.1 = 101 then
    let s1 := fgetcChar s0.2
    if s1.1 = 108 then
      let s2 := fgetcChar s1.2
      if s2.1 = 115 then
        let s3 := fgetcChar s2.2
        if s3.1 = 101 then
          let s4 := fgetcChar s3.2
          if ¬ isalnum s4.1 then (true, s4.2)
          else (false, elseUnread s0.1 s1.1 s2.1 s3.1 s4.1 s4.2)
        else (false, elseUnread s0.1 s1.1 s2.1 s3.1 0 s3.2)
      else (false, elseUnread s0.1 s1.1 s2.1 0 0 s2.2)
    else (false, elseUnread s0.1 s1.1 0 0 0 s1.2)
  else (false, elseUnread s0.1 0 0 0 0 s0.2)

/-- The jump target printed in the dispatch table (compiler.c:524):
`.L.case.%lu.%lu` of the switch id and the case value. -/
def caseTarget (id v : Int) : String := s!".L.case.{unsStr id}.{unsStr v}"

/-- The switch dispatch table (compiler.c:523-524): one `cmp`/`je` pair per
collected case value, in list order; the cmp prints the value through
`%ld`, the je target through `%lu.%lu`. -/
def switchTable (id : Int) : List Int → List Emit
  | [] => []
  | v :: t =>
    .text s!"  cmp ${sgnStr v}, %rax" ::
    .text s!"  je {caseTarget id v}" :: switchTable id t

mutual

/-- Source `statement` (compiler.c:406): parse one statement, emitting its
assembly.  Returns the emission, the rest of the input, the case list of
the enclosing switch (extended by any `case` seen), and the next value of
the static `stmt_id` counter.  The C `struct list *cases` (list.h is not
under src/) is modelled from the spec as an append-only `List Int`; the
NULL pointer passed for non-switch contexts is modelled by `[]`, which is
sound because the list is only ever touched under `switchId ≥ 0`. -/
def statement : (fuel : Nat) → (wordSize : Nat) → (inp : Input) → (fnIdent : String) →
    (switchId : Int) → (cases : List Int) → (stmtId : Int) →
    Except String (List Emit × Input × List Int × Int)
  | 0, _, _, _, _, _, _ => .error "out of fuel"
  | fuel + 1, wordSize, inp, fnIdent, switchId, cases, stmtId =>
    let s := fgetcChar (whitespace inp)
    let c := s.1
    let i1 := s.2
    if c = 123 then
      stmtSeq fuel wordSize (whitespace i1) fnIdent switchId cases stmtId
    else if c = 59 then
      .ok ([], i1, cases, stmtId)
    else if isalpha c then
      let idr := identifier (ungetc c i1)
      let buffer := idr.2.1
      let i2 := whitespace idr.2.2
      if buffer = "goto" then
        let g := identifier i2
        if g.1 = 0 then .error "expect label name after ‘goto’\n"
        else
          match assertChar (whitespace g.2.2) 59 "expect ‘;’ after ‘goto’ statement\n" with
          | .error e => .error e
          | .ok i4 => .ok ([.text s!"  jmp .L.label.{g.2.1}"], i4, cases, stmtId)
      else if buffer = "return" then
        let t := fgetcChar i2
        if t.1 ≠ 59 then
          if t.1 ≠ 40 then .error "expect ‘(’ or ‘;’ after ‘return’\n"
          else
            match expression wordSize .RAX t.2 with
            | .error e => .error e
            | .ok (eout, i3) =>
              match assertChar (whitespace i3) 41 "expect ‘)’ after ‘return’ statement\n" with
              | .error e => .error e
              | .ok i4 =>
                match assertChar (whitespace i4) 59 "expect ‘;’ after ‘return’ statement\n" with
                | .error e => .error e
                | .ok i5 =>
                  .ok (eout ++ [.text s!"  jmp .L.return.{fnIdent}"], i5, cases, stmtId)
        else .ok ([.text s!"  jmp .L.return.{fnIdent}"], t.2, cases, stmtId)
      else if buffer = "if" then
        let id := stmtId
        match assertChar i2 40 "expect ‘(’ after ‘if’\n" with
        | .error e => .error e
        | .ok i3 =>
          match expression wordSize .RAX i3 with
          | .error e => .error e
          | .ok (eout, i4) =>
            let out1 := eout ++ [.text "  cmp $0, %rax", .text s!"  je .L.else.{unsStr id}"]
            match assertChar (whitespace i4) 41 "expect ‘)’ after condition\n" with
            | .error e => .error e
            | .ok i5 =>
              match statement fuel wordSize i5 fnIdent (-1) [] (id + 1) with
              | .error e => .error e
              | .ok (thenOut, i6, _, sid2) =>
                let out2 := out1 ++ thenOut ++
                  [.text s!"  jmp .L.end.{unsStr id}", .label (.lelse id)]
                let em := elseMatch (whitespace i6)
                if em.1 then
                  match statement fuel wordSize em.2 fnIdent (-1) [] sid2 with
                  | .error e => .error e
                  | .ok (elseOut, i7, _, sid3) =>
                    .ok (out2 ++ elseOut ++ [.label (.lend id)], i7, cases, sid3)
                else .ok (out2 ++ [.label (.lend id)], em.2, cases, sid2)
      else if buffer = "while" then
        let id := stmtId
        match assertChar i2 40 "expect ‘(’ after ‘while’\n" with
        | .error e => .error e
        | .ok i3 =>
          match expression wordSize .RAX i3 with
          | .error e => .error e
          | .ok (eout, i4) =>
            let out1 := eout ++
              [.label (.lstart id), .text "  cmp $0, %rax", .text s!"  je .L.end.{unsStr id}"]
            match assertChar (whitespace i4) 41 "expect ‘)’ after condition\n" with
            | .error e => .error e
            | .ok i5 =>
              match statement fuel wordSize i5 fnIdent (-1) [] (id + 1) with
              | .error e => .error e
              | .ok (bodyOut, i6, _, sid2) =>
                .ok (out1 ++ bodyOut ++
                  [.text s!"  jmp .L.start.{unsStr id}", .label (.lend id)], i6, cases, sid2)
      else if buffer = "switch" then
        let id := stmtId
        match expression wordSize .RAX i2 with
        | .error e => .error e
        | .ok (eout, i3) =>
          let out1 := eout ++ [.text s!"  jmp .L.cmp.{sgnStr id}", .label (.lstmts id)]
          match statement fuel wordSize i3 fnIdent id [] (id + 1) with
          | .error e => .error e
          | .ok (bodyOut, i4, vs, sid2) =>
            .ok (out1 ++ bodyOut ++
              [.text s!"  jmp .L.end.{sgnStr id}", .label (.lcmp id)] ++
              switchTable id vs ++ [.label (.lend id)], i4, cases, sid2)
      else if buffer = "case" then
        -- id = stmt_id++ : the id is allocated but never used (compiler.c:532)
        if switchId < 0 then .error "unexpected ‘case’ outside of ‘switch’ statements\n"
        else
          let t := fgetcChar i2
          if t.1 = 39 then
            match character wordSize t.2 with
            | .error e => .error e
            | .ok (v, i3) =>
              caseTail fuel wordSize v i3 fnIdent switchId cases (stmtId + 1)
          else if isdigit t.1 then
            let r := number (ungetc t.1 t.2)
            caseTail fuel wordSize r.1 r.2 fnIdent switchId cases (stmtId + 1)
          else .error "unexpected character, expect constant after ‘case’\n"
      else
        let t := fgetcChar i2
        if t.1 = 58 then
          match statement fuel wordSize t.2 fnIdent switchId cases stmtId with
          | .error e => .error e
          | .ok (bodyOut, i3, cases2, sid2) =>
            .ok (Emit.label (.llabel buffer) :: bodyOut, i3, cases2, sid2)
        else .error "unexpected character, expect expression\n"
    else if c = -1 then .error "unexpected end of file, expect statement\n"
    else .error "unexpected character, expect statement\n"

/-- The tail of the `case` branch (compiler.c:554-564): EOF check on the
constant, `:`, append the value to the enclosing switch's list (list_push,
modelled from the spec as an append), emit the case label, and parse the
following statement in the same switch context. -/
def caseTail : (fuel : Nat) → (wordSize : Nat) → (v : Int) → (inp : Input) →
    (fnIdent : String) → (switchId : Int) → (cases : List Int) → (stmtId : Int) →
    Except String (List Emit × Input × List Int × Int)
  | 0, _, _, _, _, _, _, _ => .error "out of fuel"
  | fuel + 1, wordSize, v, inp, fnIdent, switchId, cases, stmtId =>
    if v = -1 then .error "unexpected end of file, expect constant after ‘case’\n"
    else
      match assertChar (whitespace inp) 58 "expect ‘:’ after ‘case’\n" with
      | .error e => .error e
      | .ok i1 =>
        let cases2 := cases ++ [v]
        match statement fuel wordSize i1 fnIdent switchId cases2 stmtId with
        | .error e => .error e
        | .ok (bodyOut, i2, cases3, sid2) =>
          .ok (Emit.label (.lcase switchId v) :: bodyOut, i2, cases3, sid2)

/-- The `{ … }` loop of `statement` (compiler.c:419-423). -/
def stmtSeq : (fuel : Nat) → (wordSize : Nat) → (inp : Input) → (fnIdent : String) →
    (switchId : Int) → (cases : List Int) → (stmtId : Int) →
    Except String (List Emit × Input × List Int × Int)
  | 0, _, _, _, _, _, _ => .error "out of fuel"
  | fuel + 1, wordSize, inp, fnIdent, switchId, cases, stmtId =>
    let s := fgetcChar inp
    if s.1 = 125 then .ok ([], s.2, cases, stmtId)
    else
      match statement fuel wordSize (ungetc s.1 s.2) fnIdent switchId cases stmtId with
      | .error e => .error e
      | .ok (out1, i2, cases2, sid2) =>
        match stmtSeq fuel wordSize (whitespace i2) fnIdent switchId cases2 sid2 with
        | .error e => .error e
        | .ok (out2, i3, cases3, sid3) => .ok (out1 ++ out2, i3, cases3, sid3)

end

/-! ## Function and top-level declarations (compiler.c:586-640) -/

/-- Source `function` (compiler.c:586): `.text` record, prologue, one body
statement (no switch context), return label and epilogue. -/
def functionDecl (wordSize : Nat) (fuel : Nat) (inp : Input) (name : String)
    (stmtId : Int) : Except String (List Emit × Input × Int) :=
  let header := [Emit.text ".text", .text s!".type {name}, @function", .label (.sym name)]
  match assertChar inp 41 "expect ‘)’ after function declaration\n" with
  | .error e => .error e
  | .ok i1 =>
    let prologue := [Emit.text "  push %rbp", .text "  mov %rsp, %rbp"]
    match statement fuel wordSize i1 name (-1) [] stmtId with
    | .error e => .error e
    | .ok (body, i2, _, sid2) =>
      .ok (header ++ prologue ++ body ++
        [.label (.lreturn name), .text "  mov %rbp, %rsp", .text "  pop %rbp", .text "  ret"],
        i2, sid2)

/-- Source `declarations` (compiler.c:608): identifiers dispatched on the
following non-blank byte to function, vector or global producers; after the
loop a remaining byte is fatal.  Returns the emission and the final value
of the `stmt_id` counter. -/
def declarations : (wordSize : Nat) → (fuel : Nat) → (inp : Input) → (stmtId : Int) →
    Except String (List Emit × Int)
  | _, 0, _, _ => .error "out of fuel"
  | wordSize, fuel + 1, inp, stmtId =>
    let idr := identifier inp
    let buffer := idr.2.1
    if idr.1 ≠ 0 then
        let out0 := [Emit.text s!".globl {buffer}"]
        let s := fgetcChar (whitespace idr.2.2)
        if s.1 = 40 then
          match functionDecl wordSize fuel s.2 buffer stmtId with
          | .error e => .error e
          | .ok (fout, i2, sid2) =>
            match declarations wordSize fuel i2 sid2 with
            | .error e => .error e
            | .ok (rout, sid3) => .ok (out0 ++ fout ++ rout, sid3)
        else if s.1 = 91 then
          match vector wordSize fuel s.2 buffer with
          | .error e => .error e
          | .ok (vout, i2) =>
            match declarations wordSize fuel i2 stmtId with
            | .error e => .error e
            | .ok (rout, sid3) => .ok (out0 ++ vout ++ rout, sid3)
        else if s.1 = -1 then .error "unexpected end of file after declaration\n"
        else
          match globalDecl wordSize fuel (ungetc s.1 s.2) buffer with
          | .error e => .error e
          | .ok (gout, i2) =>
            match declarations wordSize fuel i2 stmtId with
            | .error e => .error e
            | .ok (rout, sid3) => .ok (out0 ++ gout ++ rout, sid3)
    else
        let r := fgetc idr.2.2
        if r.1 ≠ -1 then .error "expect identifier at top level\n"
        else .ok ([], stmtId)

/-! ## Command-line front end (main.c:35-87) -/

/-- The compiler arguments structure of main.c:39-47 (diagnostic-only
fields omitted). -/
structure Cargs where
  outputFile : Option String
  inputFiles : List String
  doAssembling : Bool
  doLinking : Bool
deriving DecidableEq, Repr

/-- The initial arguments: output `a.out`, assemble and link. -/
def initCargs : Cargs :=
  { outputFile := some "a.out", inputFiles := [], doAssembling := true, doLinking := true }

/-- Result of the argument loop: an early exit with a code, or proceeding
to compilation; `messages` collects the diagnostics printed on the way. -/
inductive ArgResult
  | exit (code : Int) (messages : List String)
  | proceed (cargs : Cargs) (messages : List String)
deriving DecidableEq, Repr

/-- The argument loop of main.c:49-79.  For `-o` as last argument the
source prints the missing-filename diagnostic and still executes
`output_file = argv[++i]`, which reads the NULL terminator `argv[argc]`
(modelled as `none`); the loop then ends normally. -/
def argLoop : List String → Cargs → List String → ArgResult
  | [], cargs, msgs => .proceed cargs msgs
  | a :: rest, cargs, msgs =>
    if a = "--help" then .exit 0 msgs
    else if a = "--version" then .exit 0 msgs
    else if a = "-o" then
      match rest with
      | [] =>
        argLoop [] { cargs with outputFile := none }
          (msgs ++ ["missing filename after ‘-o’\n"])
      | f :: rest2 => argLoop rest2 { cargs with outputFile := some f } msgs
    else if a = "-S" then
      argLoop rest { cargs with doAssembling := false, doLinking := false } msgs
    else if a = "-c" then
      argLoop rest { cargs with doLinking := false } msgs
    else if a.startsWith "-" then
      .exit 1 (msgs ++ [s!"unrecognized command-line option ‘{a}’\n"])
    else argLoop rest { cargs with inputFiles := cargs.inputFiles ++ [a] } msgs

/-- main.c:49-86: run the argument loop, then fail when no input file was
given. -/
def mainArgs (argv : List String) : ArgResult :=
  match argLoop argv initCargs [] with
  | .exit code msgs => .exit code msgs
  | .proceed cargs msgs =>
    if cargs.inputFiles = [] then
      .exit 1 (msgs ++ ["no input files\ncompilation terminated.\n"])
    else .proceed cargs msgs

/-! ## Observation helpers -/

/-- Encode an ASCII source text as a byte list. -/
def enc (s : String) : Input := s.data.map Char.toNat

/-- The label definitions among an emission, in order. -/
def labelsOf (l : List Emit) : List Label :=
  l.filterMap fun e => match e with
    | .label lb => some lb
    | .text _ => none

/-- The emission of a statement-producer result (empty on error). -/
def stmtOut (r : Except String (List Emit × Input × List Int × Int)) : List Emit :=
  match r with
  | .ok (out, _, _, _) => out
  | .error _ => []

/-- The emission of a declarations result (empty on error). -/
def declOut (r : Except String (List Emit × Int)) : List Emit :=
  match r with
  | .ok (out, _) => out
  | .error _ => []

/-- A plain (non-escape) literal character: an ASCII byte that is neither
the closing quote nor the escape introducer `*`. -/
def plainChar (b : Nat) : Prop := b < 128 ∧ b ≠ 39 ∧ b ≠ 42

instance (b : Nat) : Decidable (plainChar b) := inferInstanceAs (Decidable (_ ∧ _))

/-- The packed word the source's literal loop accumulates, left to right
from byte offset `i`, each character shifted by the promoted 32-bit shift
`shlChar` (compiler.c:255). -/
def packAux (i : Nat) (value : Int) : List Nat → Int
  | [] => value
  | c :: t => packAux (i + 1) (or64 value (shlChar (Int.ofNat c) (8 * i))) t

/-- The packing the claim (and the spec) states: `c0 | c1<<8 | c2<<16 | …`
with the i-th character occupying bits [8i, 8i+7] of the 64-bit word — a
true 64-bit shift. -/
def packSpec (i : Nat) (value : Int) : List Nat → Int
  | [] => value
  | c :: t => packSpec (i + 1) (or64 value (shl64 (Int.ofNat c) (8 * i))) t

/-- Decimal digit bytes, as a Boolean predicate on raw bytes. -/
def isDigitByte (b : Nat) : Bool := decide (48 ≤ b ∧ b ≤ 57)

/-- The leading digit run the number reader consumes. -/
def digitRun (inp : Input) : List Nat := (whitespace inp).takeWhile isDigitByte

/-- What follows the leading digit run. -/
def afterRun (inp : Input) : Input := (whitespace inp).dropWhile isDigitByte

/-- Base-ten value of a digit run under 64-bit wrapping, exactly as the
reader accumulates it. -/
def digitsVal (run : List Nat) : Int :=
  run.foldl (fun (a : Int) (d : Nat) => wrap64 (wrap64 (a * 10) + ((d : Int) - 48))) 0

/-- The (tag, id) image of the five statement-id label families
(.L.else, .L.end, .L.start, .L.cmp, .L.stmts). -/
def tag5 : Label → Option (Nat × Int)
  | .lelse id => some (0, id)
  | .lend id => some (1, id)
  | .lstart id => some (2, id)
  | .lcmp id => some (3, id)
  | .lstmts id => some (4, id)
  | _ => none

/-- The statement-id-family labels of an emission, as (tag, id) pairs. -/
def ids5 (l : List Emit) : List (Nat × Int) := (labelsOf l).filterMap tag5

/-- Label families: 0 for the five statement-id forms, 1 for case labels,
2 for return labels, 3 for user goto labels, 4 for symbol labels. -/
def famOf : Label → Nat
  | .lelse _ => 0
  | .lend _ => 0
  | .lstart _ => 0
  | .lcmp _ => 0
  | .lstmts _ => 0
  | .lcase _ _ => 1
  | .lreturn _ => 2
  | .llabel _ => 3
  | .sym _ => 4

/-- The statement-producer invariant: the stmt-id counter only grows, the
id-family labels emitted carry ids allocated in [sid, sid') and are
pairwise distinct, and the case list is extended by appended values whose
case labels for the current switch id appear in the emission. -/
def StmtInv (swid : Int) (cases cases' : List Int) (sid sid' : Int)
    (out : List Emit) : Prop :=
  sid ≤ sid' ∧
  (∀ p ∈ ids5 out, sid ≤ p.2 ∧ p.2 < sid') ∧
  (ids5 out).Nodup ∧
  ∃ new, cases' = cases ++ new ∧ ∀ v ∈ new, Emit.label (.lcase swid v) ∈ out

/-- A total version of `tag5` for relating the id-family sublist to the
filtered label list. -/
def tagVal (l : Label) : Nat × Int := (tag5 l).getD (0, 0)

/-! ## Claim theorems -/

/-- Signed-char truncation is the identity on ASCII bytes. -/
theorem toChar_ascii (b : Nat) (hb : b < 128) : toChar (b : Int) = (b : Int) := by
  unfold toChar
  omega

/-- Reading `fgetcChar` on a cons cell. -/
theorem fgetcChar_cons (b : Nat) (rest : Input) :
    fgetcChar (b :: rest) = (toChar (b : Int), rest) := rfl

/-- One literal-loop iteration on a plain character packs it and moves on. -/
theorem charLoop_step_plain (n i : Nat) (b : Nat) (l : Input) (c0 value : Int)
    (hc0 : c0 ≠ 42) (hb : plainChar b) :
    charLoop (n + 1) i (b :: l) c0 value =
      charLoop n (i + 1) l (b : Int) (or64 value (shlChar (b : Int) (8 * i))) := by
  have h39 : ((b : Int)) ≠ 39 := by exact_mod_cast hb.2.1
  have h42 : ((b : Int)) ≠ 42 := by exact_mod_cast hb.2.2
  have hcc : toChar (b : Int) = (b : Int) := toChar_ascii b hb.1
  simp only [charLoop, if_pos hc0, fgetcChar_cons, hcc]
  rw [if_neg (fun h => h39 h.1), if_neg h42]

/-- One literal-loop iteration on the closing quote returns the value. -/
theorem charLoop_step_quote (n i : Nat) (l : Input) (c0 value : Int) (hc0 : c0 ≠ 42) :
    charLoop (n + 1) i ((39 : Nat) :: l) c0 value = .ok (value, l) := by
  have hcc : toChar ((39 : Nat) : Int) = 39 := by norm_num [toChar]
  simp only [charLoop, if_pos hc0, fgetcChar_cons, hcc]
  simp [hc0]

/-- After the last iteration a closing quote is accepted. -/
theorem charLoop_zero_quote (i : Nat) (l : Input) (c0 value : Int) :
    charLoop 0 i ((39 : Nat) :: l) c0 value = .ok (value, l) := by
  simp [charLoop, fgetc]

/-- After the last iteration a plain character fails the quote check. -/
theorem charLoop_zero_plain (i : Nat) (b : Nat) (l : Input) (c0 value : Int)
    (hb : plainChar b) :
    charLoop 0 i (b :: l) c0 value = .error "unclosed char literal\n" := by
  have h39 : ((b : Int)) ≠ 39 := by exact_mod_cast hb.2.1
  simp [charLoop, fgetc, h39]

/-- On a plain character stream the literal loop packs the characters one
byte position at a time until the closing quote. -/
theorem charLoop_plain (cs : List Nat) : ∀ (n i : Nat) (rest : Input) (c0 value : Int),
    (∀ b ∈ cs, plainChar b) → cs.length ≤ n → c0 ≠ 42 →
    charLoop n i (cs ++ 39 :: rest) c0 value = .ok (packAux i value cs, rest) := by
  induction cs with
  | nil =>
    intro n i rest c0 value _ _ hc0
    match n with
    | 0 => exact charLoop_zero_quote i rest c0 value
    | n + 1 => exact charLoop_step_quote n i rest c0 value hc0
  | cons c t ih =>
    intro n i rest c0 value hplain hlen hc0
    have hc : plainChar c := hplain c (by simp)
    have htail : ∀ b ∈ t, plainChar b := fun b hb => hplain b (by simp [hb])
    have h42 : ((c : Int)) ≠ 42 := by exact_mod_cast hc.2.2
    match n with
    | 0 => simp at hlen
    | n + 1 =>
      rw [List.cons_append, charLoop_step_plain n i c (t ++ 39 :: rest) c0 value hc0 hc,
        ih n (i + 1) rest (c : Int) _ htail (by simpa using hlen) h42]
      rfl

/-- With more plain characters than remaining iterations, the loop runs out
and the closing-quote check fails on a plain character. -/
theorem charLoop_overflow (cs : List Nat) : ∀ (n i : Nat) (rest : Input) (c0 value : Int),
    (∀ b ∈ cs, plainChar b) → n < cs.length → c0 ≠ 42 →
    charLoop n i (cs ++ 39 :: rest) c0 value = .error "unclosed char literal\n" := by
  induction cs with
  | nil => intro n i rest c0 value _ h _; simp at h
  | cons c t ih =>
    intro n i rest c0 value hplain hlen hc0
    have hc : plainChar c := hplain c (by simp)
    have htail : ∀ b ∈ t, plainChar b := fun b hb => hplain b (by simp [hb])
    have h42 : ((c : Int)) ≠ 42 := by exact_mod_cast hc.2.2
    match n with
    | 0 => exact charLoop_zero_plain i c (t ++ 39 :: rest) c0 value hc
    | n + 1 =>
      rw [List.cons_append, charLoop_step_plain n i c (t ++ 39 :: rest) c0 value hc0 hc]
      exact ih n (i + 1) rest (c : Int) _ htail (by simpa using hlen) h42

/-- At byte offsets 0-3 the promoted 32-bit shift of a plain character
agrees with the claimed 64-bit shift: the count stays below 32 and the
result below 2^31. -/
theorem shlChar_eq_shl64 (b i : Nat) (hb : b < 128) (hi : i ≤ 3) :
    shlChar (Int.ofNat b) (8 * i) = shl64 (Int.ofNat b) (8 * i) := by
  unfold shlChar shl64 wrap32 wrap64
  interval_cases i <;> · norm_num; omega

/-- On at most four plain characters the source packing and the claimed
packing coincide. -/
theorem packAux_eq_packSpec (cs : List Nat) : ∀ (i : Nat) (value : Int),
    (∀ b ∈ cs, plainChar b) → i + cs.length ≤ 4 →
    packAux i value cs = packSpec i value cs := by
  induction cs with
  | nil => intro i value _ _; rfl
  | cons c t ih =>
    intro i value hplain hlen
    have hc : plainChar c := hplain c (by simp)
    have htail : ∀ b ∈ t, plainChar b := fun b hb => hplain b (by simp [hb])
    simp only [packAux, packSpec]
    rw [shlChar_eq_shl64 c i hc.1 (by simp only [List.length_cons] at hlen; omega)]
    exact ih (i + 1) _ htail (by simp only [List.length_cons] at hlen; omega)

/-- Claim C4 (corrected): a character literal of 1 to 8 plain characters
followed by a closing quote decodes to the packed word of the source's
loop, in which the i-th character is shifted by `(8 * i) % 32` — the
promoted `char` is shifted at 32-bit `int` width, the count masked on the
x86-64 target, so characters 4-7 are OR-ed back into bits [0, 31] — and a
literal whose plain content exceeds word_size (8) bytes before the closing
quote is rejected as fatal; the packed word agrees with the claimed
`c0 | c1<<8 | c2<<16 | …` exactly on literals of at most four
characters. -/
theorem C4_char_literal_packing (cs : List Nat) (rest : Input)
    (hplain : ∀ b ∈ cs, plainChar b) :
    (1 ≤ cs.length → cs.length ≤ 8 →
      character 8 (cs ++ 39 :: rest) = .ok (packAux 0 0 cs, rest)) ∧
    (cs.length ≤ 4 → packAux 0 0 cs = packSpec 0 0 cs) ∧
    (9 ≤ cs.length →
      character 8 (cs ++ 39 :: rest) = .error "unclosed char literal\n") := by
  refine ⟨?_, ?_, ?_⟩
  · intro _ hle
    exact charLoop_plain cs 8 0 rest 0 0 hplain hle (by norm_num)
  · intro hle
    exact packAux_eq_packSpec cs 0 0 hplain (by omega)
  · intro hge
    exact charLoop_overflow cs 8 0 rest 0 0 hplain (by omega) (by norm_num)

/-- Witness for C4: the literal `'ab'` packs to 0x6261 = 25185, on which
the source packing and the claimed packing agree. -/
theorem C4_char_literal_packing_witness :
    character 8 ([97, 98] ++ 39 :: []) = .ok (packAux 0 0 [97, 98], []) ∧
    packAux 0 0 [97, 98] = packSpec 0 0 [97, 98] ∧
    packAux 0 0 [97, 98] = 25185 :=
  ⟨(C4_char_literal_packing [97, 98] [] (by decide)).1 (by decide) (by decide),
   (C4_char_literal_packing [97, 98] [] (by decide)).2.1 (by decide),
   by decide⟩

/-- Claim C4, counterexample: the five-character literal `'abcde'` is read
as 0x64636265 — the fifth character's shift count 32 is masked to 0 on the
x86-64 target, OR-ing it back into bits [0, 7] — while the claimed packing
with the fifth character at bits [32, 39] is 0x6564636261. -/
theorem C4_counterexample :
    character 8 ([97, 98, 99, 100, 101] ++ 39 :: []) = .ok (1684234853, []) ∧
    packSpec 0 0 [97, 98, 99, 100, 101] = 435475931745 ∧
    character 8 ([97, 98, 99, 100, 101] ++ 39 :: []) ≠
      .ok (packSpec 0 0 [97, 98, 99, 100, 101], []) := by
  exact ⟨by decide, by decide, by decide⟩

/-- Claim C5 (code bug in the source): after the escape `**` decodes to the
byte `*`, the loop variable `c` still holds `*`, which the next iteration
mistakes for a pending escape marker; the closing quote is then consumed
as an escape selector (packing 0x27 at the next byte) and reading
continues past the literal.  On `'**'` followed by `aaaaaa'` the reader
consumes the whole stream and returns a word packed over eight iterations
instead of the claimed 0x2A with the input consumed exactly through the
first closing quote. -/
theorem C5_star_escape_behavior :
    escDecode 42 = some 42 ∧
    character 8 ([42, 42, 39] ++ [97, 97, 97, 97, 97, 97, 39]) =
      .ok (1633773419, []) ∧
    character 8 ([42, 42, 39] ++ [97, 97, 97, 97, 97, 97, 39]) ≠
      .ok (42, [97, 97, 97, 97, 97, 97, 39]) := by
  exact ⟨by decide, by decide, by decide⟩

/-- Claim C9: when `-o` is the last command-line argument the program
reports the missing filename but does not exit for that reason — the
argument loop runs to completion and proceeds (with the NULL `argv[argc]`
as output path); and whenever an argument follows `-o`, that argument
becomes the output path. -/
theorem C9_missing_output_file (cargs : Cargs) (msgs : List String) :
    (argLoop ["-o"] cargs msgs =
      .proceed { cargs with outputFile := none }
        (msgs ++ ["missing filename after ‘-o’\n"])) ∧
    ∀ (f : String) (rest : List String),
      argLoop ("-o" :: f :: rest) cargs msgs =
        argLoop rest { cargs with outputFile := some f } msgs := by
  exact ⟨rfl, fun f rest => rfl⟩

/-- Claim C10: the then-branch, else-branch and while-body are parsed with
switch id -1 and no case list, discarding any enclosing switch context, so
a `case` directly in such a body is a fatal case-outside-switch error even
inside a `switch`; while a `case` under braces, labels, or another case of
the same switch is accepted. -/
theorem C10_case_context (fn : String) (swid : Int) (cs : List Int) (st : Int) :
    statement 50 8 (enc "if (1) case 1: ;") fn swid cs st =
      .error "unexpected ‘case’ outside of ‘switch’ statements\n" ∧
    statement 50 8 (enc "if (1) ; else case 1: ;") fn swid cs st =
      .error "unexpected ‘case’ outside of ‘switch’ statements\n" ∧
    statement 50 8 (enc "while (1) case 1: ;") fn swid cs st =
      .error "unexpected ‘case’ outside of ‘switch’ statements\n" ∧
    statement 50 8 (enc "switch 1 { case 1: if (1) case 2: ; }") fn swid cs 0 =
      .error "unexpected ‘case’ outside of ‘switch’ statements\n" ∧
    (statement 50 8 (enc "switch 1 { case 1: { case 2: ; } }") fn swid cs 0).isOk = true ∧
    (statement 50 8 (enc "switch 1 lab: case 1: ;") fn swid cs 0).isOk = true := by
  exact ⟨rfl, rfl, rfl, rfl, rfl, rfl⟩

/-- Every successfully parsed ival emits a single `.long` directive. -/
theorem ival_emits_long (wordSize : Nat) (inp : Input) (out : List Emit)
    (rest : Input) (h : ival wordSize inp = .ok (out, rest)) :
    ∃ v : String, out = [Emit.text s!"  .long {v}"] := by
  simp only [ival] at h
  split at h
  · split at h
    · exact absurd h (by simp)
    · exact ⟨_, by cases h; rfl⟩
  · split at h
    · split at h
      · exact absurd h (by simp)
      · split at h
        · exact absurd h (by simp)
        · exact ⟨_, by cases h; rfl⟩
    · split at h
      · exact absurd h (by simp)
      · exact ⟨_, by cases h; rfl⟩

/-- Claim C7: every successfully parsed ival — identifier, character
literal, or decimal integer — emits exactly one `.long` directive (never a
word-sized directive), whatever the configured word size. -/
theorem C7_ival_long (wordSize : Nat) (inp : Input) (out : List Emit)
    (rest : Input) (h : ival wordSize inp = .ok (out, rest)) :
    ∃ v : String, out = [Emit.text s!"  .long {v}"] :=
  ival_emits_long wordSize inp out rest h

/-- Witness for C7 at the concrete ival `42;`. -/
theorem C7_ival_long_witness :
    ∃ v : String, [Emit.text "  .long 42"] = [Emit.text s!"  .long {v}"] :=
  C7_ival_long 8 (enc "42;") [Emit.text "  .long 42"] [59] (by rfl)

/-- Pushing back the signed-char image of a non-0xFF byte restores it. -/
theorem ungetc_toChar (b : Nat) (rest : Input) (hb : b < 256) (hne : b ≠ 255) :
    ungetc (toChar (b : Int)) rest = b :: rest := by
  have h1 : toChar (b : Int) ≠ -1 := by unfold toChar; omega
  unfold ungetc
  rw [if_neg h1]
  have h2 : ((toChar (b : Int)) % 256).toNat = b := by unfold toChar; omega
  rw [h2]

/-- The whitespace skipper leaves a suffix of its input. -/
theorem whitespace_drop (inp : Input) (hb : ∀ b ∈ inp, b < 256) :
    ∃ k, whitespace inp = inp.drop k := by
  induction inp with
  | nil => exact ⟨0, rfl⟩
  | cons b rest ih =>
    by_cases h255 : toChar (b : Int) = -1
    · exact ⟨1, by simp [whitespace, h255]⟩
    · by_cases hsp : isspace (toChar (b : Int))
      · obtain ⟨k, hk⟩ := ih (fun x hx => hb x (by simp [hx]))
        exact ⟨k + 1, by simp [whitespace, h255, hsp, hk]⟩
      · refine ⟨0, ?_⟩
        have : b ≠ 255 := by
          intro h; apply h255; subst h; unfold toChar; omega
        simp [whitespace, h255, hsp, ungetc_toChar b rest (hb b (by simp)) this]

/-- The number loop walks through a run of digit bytes, accumulating the
wrapped base-ten value. -/
theorem numLoop_digits (run : List Nat) : ∀ (l : Input) (read : Nat) (num : Int),
    (∀ b ∈ run, isDigitByte b = true) →
    numLoop (run ++ l) read num =
      numLoop l (read + run.length)
        (run.foldl (fun (a : Int) (d : Nat) => wrap64 (wrap64 (a * 10) + ((d : Int) - 48))) num) := by
  induction run with
  | nil => intro l read num _; simp
  | cons b t ih =>
    intro l read num hdig
    have hbd : 48 ≤ b ∧ b ≤ 57 := by
      have := hdig b (by simp)
      simpa [isDigitByte] using this
    have hcc : toChar (b : Int) = (b : Int) := toChar_ascii b (by omega)
    have hne : toChar (b : Int) ≠ -1 := by rw [hcc]; omega
    have hdg : isdigit (toChar (b : Int)) := by
      rw [hcc]; constructor <;> [exact_mod_cast hbd.1; exact_mod_cast hbd.2]
    have step : numLoop ((b :: t) ++ l) read num =
        numLoop (t ++ l) (read + 1) (wrap64 (wrap64 (num * 10) + (toChar (b : Int) - 48))) := by
      simp [numLoop, hne, hdg]
    rw [step, ih l (read + 1) (wrap64 (wrap64 (num * 10) + (toChar (b : Int) - 48)))
      (fun x hx => hdig x (by simp [hx]))]
    rw [hcc]
    simp [List.foldl_cons]
    ring_nf

/-- The number loop at the end of input. -/
theorem numLoop_nil (read : Nat) (num : Int) :
    numLoop [] read num = (if read = 0 then -1 else num, []) := rfl

/-- The number loop consumes a 0xFF byte as if it were EOF. -/
theorem numLoop_ff (t : Input) (read : Nat) (num : Int) :
    numLoop (255 :: t) read num = (if read = 0 then -1 else num, t) := by
  have h : toChar (255 : Int) = -1 := by unfold toChar; norm_num
  simp [numLoop, h]

/-- The number loop pushes back an ordinary non-digit byte and returns the
accumulator. -/
theorem numLoop_nondigit (b : Nat) (t : Input) (read : Nat) (num : Int)
    (hb : b < 256) (hne : b ≠ 255) (hnd : isDigitByte b = false) :
    numLoop (b :: t) read num = (num, b :: t) := by
  have h1 : toChar (b : Int) ≠ -1 := by unfold toChar; omega
  have h2 : ¬ isdigit (toChar (b : Int)) := by
    unfold toChar isdigit
    simp [isDigitByte] at hnd
    omega
  simp [numLoop, h1, h2, ungetc_toChar b t hb hne]

/-- A byte in the head position after `dropWhile` falsifies the predicate. -/
theorem dropWhile_head_false {p : Nat → Bool} :
    ∀ (l : List Nat) (b : Nat) (t : List Nat), l.dropWhile p = b :: t → p b = false := by
  intro l
  induction l with
  | nil => intro b t h; simp at h
  | cons x xs ih =>
    intro b t h
    by_cases hx : p x
    · exact ih b t (by simpa [List.dropWhile, hx] using h)
    · rw [List.dropWhile_cons_of_neg (by simpa using hx)] at h
      cases h
      simpa using hx

/-- Claim C8, counterexample: on the single byte 0xFF the reader returns
the EOF sentinel although end of file was not hit and a non-digit byte was
seen; the claim instead requires the result (0, [255]) — return 0 and push
the byte back. -/
theorem C8_counterexample :
    number [255] = (-1, []) ∧ number [255] ≠ (0, [255]) := by
  exact ⟨by decide, by decide⟩

/-- Claim C8, amended: after skipping whitespace, with `digitRun` the
leading run of digit bytes: when the run is empty the reader returns the
EOF sentinel if the stream is exhausted or the next byte is 0xFF (whose
signed-char image the source conflates with EOF, consuming it), and
otherwise returns 0 with the non-digit pushed back; when the run is
nonempty it returns the base-ten value of the run, wrapping silently at 64
bits. -/
theorem C8_number_reader (inp : Input) (hb : ∀ b ∈ inp, b < 256) :
    (digitRun inp = [] → afterRun inp = [] → number inp = (-1, [])) ∧
    (∀ t, digitRun inp = [] → afterRun inp = 255 :: t → number inp = (-1, t)) ∧
    (∀ b t, digitRun inp = [] → afterRun inp = b :: t → b ≠ 255 →
      number inp = (0, b :: t)) ∧
    (digitRun inp ≠ [] → (number inp).1 = digitsVal (digitRun inp)) := by
  have hw : ∀ b ∈ whitespace inp, b < 256 := by
    obtain ⟨k, hk⟩ := whitespace_drop inp hb
    intro b hbm
    exact hb b (List.drop_subset k inp (hk ▸ hbm))
  have hsplit : digitRun inp ++ afterRun inp = whitespace inp := by
    unfold digitRun afterRun
    exact List.takeWhile_append_dropWhile isDigitByte (whitespace inp)
  have hrun : ∀ b ∈ digitRun inp, isDigitByte b = true := by
    intro b hbm
    exact List.mem_takeWhile_imp hbm
  have hnum : number inp = numLoop (digitRun inp ++ afterRun inp) 0 0 := by
    rw [hsplit]; rfl
  refine ⟨?_, ?_, ?_, ?_⟩
  · intro h1 h2
    rw [hnum, h1, h2]
    rfl
  · intro t h1 h2
    rw [hnum, h1, List.nil_append, h2, numLoop_ff]
    rfl
  · intro b t h1 h2 hne
    have hbl : b < 256 := by
      have : b ∈ whitespace inp := by
        rw [← hsplit, h2]; simp [h1]
      exact hw b this
    have hnd : isDigitByte b = false := dropWhile_head_false (whitespace inp) b t h2
    rw [hnum, h1, List.nil_append, h2, numLoop_nondigit b t 0 0 hbl hne hnd]
  · intro h1
    rw [hnum, numLoop_digits (digitRun inp) (afterRun inp) 0 0 hrun]
    have hlen : 0 + (digitRun inp).length ≠ 0 := by
      simpa using fun h => h1 (List.eq_nil_of_length_eq_zero h)
    rcases hrest : afterRun inp with _ | ⟨b, t⟩
    · rw [numLoop_nil, if_neg hlen]; rfl
    · by_cases h255 : b = 255
      · subst h255
        rw [numLoop_ff, if_neg hlen]; rfl
      · have hbl : b < 256 := by
          have : b ∈ whitespace inp := by
            rw [← hsplit, hrest]; simp
          exact hw b this
        have hnd : isDigitByte b = false := dropWhile_head_false (whitespace inp) b t hrest
        rw [numLoop_nondigit b t _ _ hbl h255 hnd]
        rfl

/-- Witness for C8 at the concrete input `42;`. -/
theorem C8_number_reader_witness :
    (number (enc "42;")).1 = digitsVal (digitRun (enc "42;")) :=
  (C8_number_reader (enc "42;") (by decide)).2.2.2 (by decide)

/-- Every successful initializer-list emission is a sequence of single
`.long` directives, one per parsed ival. -/
theorem ivalLoop_longs (fuel : Nat) :
    ∀ (wordSize : Nat) (inp : Input) (out : List Emit) (rest : Input),
    ivalLoop wordSize fuel inp = .ok (out, rest) →
    ∃ vs : List String, out = vs.map (fun v => Emit.text s!"  .long {v}") := by
  induction fuel with
  | zero => intro ws inp out rest h; simp [ivalLoop] at h
  | succ n ih =>
    intro ws inp out rest h
    simp only [ivalLoop] at h
    split at h
    · exact absurd h (by simp)
    · rename_i r out1 i1 heq
      obtain ⟨v, hv⟩ := ival_emits_long ws (whitespace inp) out1 i1 heq
      split at h
      · split at h
        · exact absurd h (by simp)
        · rename_i r2 out2 i2 heq2
          obtain ⟨vs, hvs⟩ := ih ws _ out2 i2 heq2
          refine ⟨v :: vs, ?_⟩
          cases h
          simp [hv, hvs]
      · split at h
        · refine ⟨[v], ?_⟩
          cases h
          simp [hv]
        · exact absurd h (by simp)

/-- Claim C6: for a vector declaration, a non-empty initializer list makes
the bracketed size irrelevant — the emission is the header followed by
exactly one `.long` per ival and no `.zero`; an empty initializer list
(next non-blank byte `;`) emits `.zero word_size*size` when that product
is non-zero, and nothing after the header when the size is absent (or the
product is zero). -/
theorem C6_vector_size_and_init :
    (∀ (ws fuel : Nat) (inp : Input) (name : String) (i1 i2 : Input),
      fgetcChar (whitespace inp) = (93, i1) →
      fgetcChar (whitespace i1) = (59, i2) →
      vector ws fuel inp name = .ok (dataHeader ws name, i2)) ∧
    (∀ (ws fuel : Nat) (inp : Input) (name : String) (c num : Int)
        (i1 i2 i3 i4 : Input),
      fgetcChar (whitespace inp) = (c, i1) → c ≠ 93 →
      number (ungetc c i1) = (num, i2) → num ≠ -1 →
      fgetc (whitespace i2) = (93, i3) →
      fgetcChar (whitespace i3) = (59, i4) →
      vector ws fuel inp name = .ok (dataHeader ws name ++
        (if wrap64 ((ws : Int) * num) = 0 then []
         else [Emit.text s!"  .zero {sgnStr (wrap64 ((ws : Int) * num))}"]), i4)) ∧
    (∀ (ws fuel : Nat) (inp : Input) (name : String) (c num c2 : Int)
        (i1 i2 i3 i4 i5 : Input) (lout : List Emit),
      fgetcChar (whitespace inp) = (c, i1) → c ≠ 93 →
      number (ungetc c i1) = (num, i2) → num ≠ -1 →
      fgetc (whitespace i2) = (93, i3) →
      fgetcChar (whitespace i3) = (c2, i4) → c2 ≠ 59 →
      ivalLoop ws fuel (ungetc c2 i4) = .ok (lout, i5) →
      vector ws fuel inp name = .ok (dataHeader ws name ++ lout, i5) ∧
      ∃ vs : List String, lout = vs.map (fun v => Emit.text s!"  .long {v}")) := by
  refine ⟨?_, ?_, ?_⟩
  · intro ws fuel inp name i1 i2 h1 h2
    simp only [vector, h1]
    norm_num
    simp only [h2]
    norm_num [wrap64]
  · intro ws fuel inp name c num i1 i2 i3 i4 h1 hc h2 hnum h3 h4
    have h93 : ¬ ((93 : Int) ≠ 93) := by norm_num
    have h59 : ¬ ((59 : Int) ≠ 59) := by norm_num
    simp only [vector, h1, if_pos hc, h2, if_neg hnum, h3, if_neg h93, h4, if_neg h59]
    by_cases hz : wrap64 ((ws : Int) * num) = 0
    · simp [hz]
    · simp [hz]
  · intro ws fuel inp name c num c2 i1 i2 i3 i4 i5 lout h1 hc h2 hnum h3 h4 hc2 h5
    have h93 : ¬ ((93 : Int) ≠ 93) := by norm_num
    constructor
    · simp only [vector, h1, if_pos hc, h2, if_neg hnum, h3, if_neg h93, h4, if_pos hc2, h5]
    · exact ivalLoop_longs fuel ws (ungetc c2 i4) lout i5 h5

/-- Witness for C6: `z[];`, `z[3];` and `v[3] 1;` (after the `[`). -/
theorem C6_vector_size_and_init_witness :
    vector 8 9 (enc "];") "z" = .ok (dataHeader 8 "z", []) ∧
    vector 8 9 (enc "3];") "z" = .ok (dataHeader 8 "z" ++
      (if wrap64 ((8 : Int) * 3) = 0 then []
       else [Emit.text s!"  .zero {sgnStr (wrap64 ((8 : Int) * 3))}"]), []) ∧
    (vector 8 9 (enc "3] 1;") "v" = .ok (dataHeader 8 "v" ++ [Emit.text "  .long 1"], []) ∧
      ∃ vs : List String,
        [Emit.text "  .long 1"] = vs.map (fun v => Emit.text s!"  .long {v}")) :=
  ⟨C6_vector_size_and_init.1 8 9 (enc "];") "z" [59] [] (by decide) (by decide),
   C6_vector_size_and_init.2.1 8 9 (enc "3];") "z" 51 3 [93, 59] [93, 59] [59] []
     (by decide) (by decide) (by decide) (by decide) (by decide) (by decide),
   C6_vector_size_and_init.2.2 8 9 (enc "3] 1;") "v" 51 3 49 [93, 32, 49, 59]
     [93, 32, 49, 59] [32, 49, 59] [59] [] [Emit.text "  .long 1"]
     (by decide) (by decide) (by decide) (by decide) (by decide) (by decide) (by decide)
     (by decide)⟩

/-- Claim C1, counterexample: on `while (1) ;` the code evaluating the
condition (`mov $1, %rax`) is emitted before the `.L.start.0:` label, so
the emission differs from the claimed sequence, which puts the label
first (and with it re-evaluation of the condition on every iteration). -/
theorem C1_counterexample :
    statement 50 8 (enc "while (1) ;") "f" (-1) [] 0 =
      .ok ([Emit.text "  mov $1, %rax", .label (.lstart 0), .text "  cmp $0, %rax",
        .text "  je .L.end.0", .text "  jmp .L.start.0", .label (.lend 0)], [], [], 1) ∧
    ([Emit.text "  mov $1, %rax", .label (.lstart 0), .text "  cmp $0, %rax",
      .text "  je .L.end.0", .text "  jmp .L.start.0", .label (.lend 0)] : List Emit) ≠
    [Emit.label (.lstart 0), .text "  mov $1, %rax", .text "  cmp $0, %rax",
      .text "  je .L.end.0", .text "  jmp .L.start.0", .label (.lend 0)] := by
  exact ⟨by decide, by decide⟩

/-- Claim C1, amended: for a `while (e) s` statement the emitted assembly
is, in order: the code evaluating `e` into %rax, then the label
`.L.start.<id>:`, then `cmp $0, %rax` and `je .L.end.<id>`, then the
body, then `jmp .L.start.<id>` and `.L.end.<id>:` — the condition
evaluation is placed before the loop-start label, so the loop repeats
only the comparison of the initially computed value, not the
evaluation. -/
theorem C1_while_emission (fuel wordSize : Nat) (inp : Input) (fn : String)
    (swid : Int) (cs : List Int) (sid : Int) (c : Int) (i1 : Input) (n : Nat)
    (j i3 : Input) (evalOut : List Emit) (i4 i5 : Input) (bodyOut : List Emit)
    (i6 : Input) (cs2 : List Int) (sid2 : Int)
    (h1 : fgetcChar (whitespace inp) = (c, i1))
    (ha : isalpha c)
    (hident : identifier (ungetc c i1) = (n, "while", j))
    (hlp : assertChar (whitespace j) 40 "expect ‘(’ after ‘while’\n" = .ok i3)
    (hexpr : expression wordSize .RAX i3 = .ok (evalOut, i4))
    (hrp : assertChar (whitespace i4) 41 "expect ‘)’ after condition\n" = .ok i5)
    (hbody : statement fuel wordSize i5 fn (-1) [] (sid + 1) = .ok (bodyOut, i6, cs2, sid2)) :
    statement (fuel + 1) wordSize inp fn swid cs sid =
      .ok (evalOut ++
        [Emit.label (.lstart sid), .text "  cmp $0, %rax",
          .text s!"  je .L.end.{unsStr sid}"] ++
        bodyOut ++
        [Emit.text s!"  jmp .L.start.{unsStr sid}", .label (.lend sid)],
        i6, cs, sid2) := by
  have hc1 : c ≠ 123 := by unfold isalpha at ha; omega
  have hc2 : c ≠ 59 := by unfold isalpha at ha; omega
  have e1 : (("while" : String) = "goto") = False := by simp
  have e2 : (("while" : String) = "return") = False := by simp
  have e3 : (("while" : String) = "if") = False := by simp
  have e4 : (("while" : String) = "while") = True := by simp
  simp only [statement, h1, if_neg hc1, if_neg hc2, if_pos ha, hident, e1, e2, e3, e4,
    if_false, if_true, hlp, hexpr, hrp, hbody]

/-- Witness for the amended C1 on `while (1) ;`. -/
theorem C1_while_emission_witness :
    statement 50 8 (enc "while (1) ;") "f" (-1) [] 0 =
      .ok ([Emit.text "  mov $1, %rax"] ++
        [Emit.label (.lstart 0), .text "  cmp $0, %rax", .text s!"  je .L.end.{unsStr 0}"] ++
        [] ++
        [Emit.text s!"  jmp .L.start.{unsStr 0}", .label (.lend 0)], [], [], 1) :=
  C1_while_emission 49 8 (enc "while (1) ;") "f" (-1) [] 0 119
    [104, 105, 108, 101, 32, 40, 49, 41, 32, 59] 5 [32, 40, 49, 41, 32, 59]
    [49, 41, 32, 59] [Emit.text "  mov $1, %rax"] [41, 32, 59] [32, 59] [] [] [] 1
    (by decide) (by decide) (by decide) (by decide) (by decide) (by decide) (by decide)

/-- The map `labelsOf` distributes over append. -/
theorem labelsOf_append (a b : List Emit) :
    labelsOf (a ++ b) = labelsOf a ++ labelsOf b :=
  List.filterMap_append a b _

/-- The map `ids5` distributes over append. -/
theorem ids5_append (a b : List Emit) : ids5 (a ++ b) = ids5 a ++ ids5 b := by
  unfold ids5
  rw [labelsOf_append, List.filterMap_append]

theorem ids5_nil : ids5 [] = [] := rfl

theorem ids5_text (s : String) (l : List Emit) : ids5 (.text s :: l) = ids5 l := rfl

theorem ids5_lelse (id : Int) (l : List Emit) :
    ids5 (.label (.lelse id) :: l) = (0, id) :: ids5 l := rfl

theorem ids5_lend (id : Int) (l : List Emit) :
    ids5 (.label (.lend id) :: l) = (1, id) :: ids5 l := rfl

theorem ids5_lstart (id : Int) (l : List Emit) :
    ids5 (.label (.lstart id) :: l) = (2, id) :: ids5 l := rfl

theorem ids5_lcmp (id : Int) (l : List Emit) :
    ids5 (.label (.lcmp id) :: l) = (3, id) :: ids5 l := rfl

theorem ids5_lstmts (id : Int) (l : List Emit) :
    ids5 (.label (.lstmts id) :: l) = (4, id) :: ids5 l := rfl

theorem ids5_lcase (sid v : Int) (l : List Emit) :
    ids5 (.label (.lcase sid v) :: l) = ids5 l := rfl

theorem ids5_lreturn (fn : String) (l : List Emit) :
    ids5 (.label (.lreturn fn) :: l) = ids5 l := rfl

theorem ids5_llabel (name : String) (l : List Emit) :
    ids5 (.label (.llabel name) :: l) = ids5 l := rfl

theorem ids5_sym (name : String) (l : List Emit) :
    ids5 (.label (.sym name) :: l) = ids5 l := rfl

/-- ids5 vanishes on label-free emissions. -/
theorem ids5_eq_nil_of_labels {l : List Emit} (h : labelsOf l = []) : ids5 l = [] := by
  unfold ids5
  rw [h]
  rfl

/-- The expression producer emits no labels. -/
theorem expression_labels (ws : Nat) (reg : AsmRegister) (inp : Input)
    (out : List Emit) (rest : Input) (h : expression ws reg inp = .ok (out, rest)) :
    labelsOf out = [] := by
  simp only [expression] at h
  split at h
  · split at h
    · exact absurd h (by simp)
    · split at h <;> (cases h; rfl)
  · split at h
    · exact absurd h (by simp)
    · split at h
      · split at h <;> (cases h; rfl)
      · exact absurd h (by simp)

/-- The switch dispatch table emits no labels. -/
theorem switchTable_labels (id : Int) (vs : List Int) :
    labelsOf (switchTable id vs) = [] := by
  induction vs with
  | nil => rfl
  | cons v t ih => simpa [switchTable, labelsOf] using ih

/-- A trivial statement invariant for label-free emissions. -/
theorem StmtInv_pure (swid : Int) (cases : List Int) (sid : Int) (out : List Emit)
    (hout : labelsOf out = []) : StmtInv swid cases cases sid sid out :=
  ⟨le_refl _, by simp [ids5_eq_nil_of_labels hout], by simp [ids5_eq_nil_of_labels hout],
    [], by simp, by simp⟩

/-- A pair with a small id cannot sit in a list of larger-id pairs. -/
theorem pair_notmem_of_range {l : List (Nat × Int)} {s e : Int} (t : Nat)
    (h : ∀ p ∈ l, s + 1 ≤ p.2 ∧ p.2 < e) : (t, s) ∉ l := by
  intro hm
  have h1 : s + 1 ≤ s := by simpa using (h _ hm).1
  omega

/-- Nodup for the if emission shape: then-ids, `.L.else`, else-ids,
`.L.end`. -/
theorem nodup_sand_if (T E : List (Nat × Int)) (s m e : Int)
    (hT : ∀ p ∈ T, s + 1 ≤ p.2 ∧ p.2 < m) (hE : ∀ p ∈ E, m ≤ p.2 ∧ p.2 < e)
    (hsm : s + 1 ≤ m) (nT : T.Nodup) (nE : E.Nodup) :
    (T ++ (0, s) :: (E ++ [(1, s)])).Nodup := by
  rw [List.nodup_append]
  refine ⟨nT, ?_, ?_⟩
  · rw [List.nodup_cons, List.nodup_append]
    refine ⟨?_, nE, List.nodup_singleton _, ?_⟩
    · intro hm
      rcases List.mem_append.1 hm with hm | hm
      · have h1 : m ≤ s := by simpa using (hE _ hm).1
        omega
      · simp at hm
    · intro p hpE hp1
      simp only [List.mem_singleton] at hp1
      subst hp1
      have h1 : m ≤ s := by simpa using (hE _ hpE).1
      omega
  · intro p hpT hp2
    have hT1 : s + 1 ≤ p.2 := (hT _ hpT).1
    have hT2 : p.2 < m := (hT _ hpT).2
    rcases List.mem_cons.1 hp2 with h | h
    · subst h
      simp at hT1
    · rcases List.mem_append.1 h with h | h
      · have h1 : m ≤ p.2 := (hE _ h).1
        omega
      · simp only [List.mem_singleton] at h
        subst h
        simp at hT1

/-- Nodup for the while emission shape: `.L.start`, body ids, `.L.end`. -/
theorem nodup_sand_while (B : List (Nat × Int)) (s e : Int)
    (hB : ∀ p ∈ B, s + 1 ≤ p.2 ∧ p.2 < e) (nB : B.Nodup) :
    ((2, s) :: (B ++ [(1, s)])).Nodup := by
  rw [List.nodup_cons, List.nodup_append]
  refine ⟨?_, nB, List.nodup_singleton _, ?_⟩
  · intro hm
    rcases List.mem_append.1 hm with hm | hm
    · exact pair_notmem_of_range 2 hB hm
    · simp at hm
  · intro p hpB hp1
    simp only [List.mem_singleton] at hp1
    subst hp1
    have h1 : s + 1 ≤ s := by simpa using (hB _ hpB).1
    omega

/-- Nodup for the switch emission shape: `.L.stmts`, body ids, `.L.cmp`,
`.L.end`. -/
theorem nodup_sand_switch (B : List (Nat × Int)) (s e : Int)
    (hB : ∀ p ∈ B, s + 1 ≤ p.2 ∧ p.2 < e) (nB : B.Nodup) :
    ((4, s) :: (B ++ (3, s) :: [(1, s)])).Nodup := by
  rw [List.nodup_cons, List.nodup_append]
  refine ⟨?_, nB, ?_, ?_⟩
  · intro hm
    rcases List.mem_append.1 hm with hm | hm
    · exact pair_notmem_of_range 4 hB hm
    · simp at hm
  · simp
  · intro p hpB hp1
    rcases List.mem_cons.1 hp1 with h | h
    · subst h
      have h1 : s + 1 ≤ s := by simpa using (hB _ hpB).1
      omega
    · simp only [List.mem_singleton] at h
      subst h
      have h1 : s + 1 ≤ s := by simpa using (hB _ hpB).1
      omega

/-- Weaken the start of the id range of a statement invariant. -/
theorem StmtInv_mono_sid {swid : Int} {cs cs2 : List Int} {sid sid2 : Int}
    {out : List Emit} (h : StmtInv swid cs cs2 (sid + 1) sid2 out) :
    StmtInv swid cs cs2 sid sid2 out :=
  ⟨by have := h.1; omega,
   fun p hp => ⟨by have := (h.2.1 p hp).1; omega, (h.2.1 p hp).2⟩,
   h.2.2.1, h.2.2.2⟩

/-- The central invariant of the statement producer, by induction on the
fuel, jointly for `statement`, `caseTail` and `stmtSeq`. -/
theorem stmt_inv (fuel : Nat) :
    (∀ (ws : Nat) (inp : Input) (fn : String) (swid : Int) (cs : List Int)
      (sid : Int) (out : List Emit) (inp2 : Input) (cs2 : List Int) (sid2 : Int),
      statement fuel ws inp fn swid cs sid = .ok (out, inp2, cs2, sid2) →
      StmtInv swid cs cs2 sid sid2 out) ∧
    (∀ (ws : Nat) (v : Int) (inp : Input) (fn : String) (swid : Int) (cs : List Int)
      (sid : Int) (out : List Emit) (inp2 : Input) (cs2 : List Int) (sid2 : Int),
      caseTail fuel ws v inp fn swid cs sid = .ok (out, inp2, cs2, sid2) →
      StmtInv swid cs cs2 sid sid2 out) ∧
    (∀ (ws : Nat) (inp : Input) (fn : String) (swid : Int) (cs : List Int)
      (sid : Int) (out : List Emit) (inp2 : Input) (cs2 : List Int) (sid2 : Int),
      stmtSeq fuel ws inp fn swid cs sid = .ok (out, inp2, cs2, sid2) →
      StmtInv swid cs cs2 sid sid2 out) := by
  induction fuel with
  | zero =>
    refine ⟨?_, ?_, ?_⟩
    · intro ws inp fn swid cs sid out inp2 cs2 sid2 h
      simp [statement] at h
    · intro ws v inp fn swid cs sid out inp2 cs2 sid2 h
      simp [caseTail] at h
    · intro ws inp fn swid cs sid out inp2 cs2 sid2 h
      simp [stmtSeq] at h
  | succ n ih =>
    obtain ⟨ihS, ihC, ihQ⟩ := ih
    refine ⟨?_, ?_, ?_⟩
    · -- statement
      intro ws inp fn swid cs sid out inp2 cs2 sid2 h
      simp only [statement] at h
      generalize hs : fgetcChar (whitespace inp) = sPair at h
      obtain ⟨c, i1⟩ := sPair
      dsimp only at h
      by_cases h1 : c = 123
      · rw [if_pos h1] at h
        exact ihQ _ _ _ _ _ _ _ _ _ _ h
      rw [if_neg h1] at h
      by_cases h2 : c = 59
      · rw [if_pos h2] at h
        cases h
        exact StmtInv_pure _ _ _ _ rfl
      rw [if_neg h2] at h
      by_cases h3 : isalpha c
      case neg =>
        rw [if_neg h3] at h
        by_cases h4 : c = -1
        · rw [if_pos h4] at h
          exact absurd h (by simp)
        · rw [if_neg h4] at h
          exact absurd h (by simp)
      rw [if_pos h3] at h
      generalize hid : identifier (ungetc c i1) = idr at h
      obtain ⟨nid, buffer, j⟩ := idr
      dsimp only at h
      by_cases g1 : buffer = "goto"
      · rw [if_pos g1] at h
        generalize hid2 : identifier (whitespace j) = gp at h
        obtain ⟨n2, name2, j2⟩ := gp
        dsimp only at h
        by_cases gz : n2 = 0
        · rw [if_pos gz] at h
          exact absurd h (by simp)
        rw [if_neg gz] at h
        cases ha : assertChar (whitespace j2) 59 "expect ‘;’ after ‘goto’ statement\n" with
        | error e =>
          rw [ha] at h
          exact absurd h (by simp)
        | ok i4 =>
          rw [ha] at h
          dsimp only at h
          cases h
          exact StmtInv_pure _ _ _ _ rfl
      rw [if_neg g1] at h
      by_cases g2 : buffer = "return"
      · rw [if_pos g2] at h
        generalize ht : fgetcChar (whitespace j) = tPair at h
        obtain ⟨tc, ti⟩ := tPair
        dsimp only at h
        by_cases hsemi : tc ≠ 59
        · rw [if_pos hsemi] at h
          by_cases hlp : tc ≠ 40
          · rw [if_pos hlp] at h
            exact absurd h (by simp)
          rw [if_neg hlp] at h
          cases hexpr : expression ws .RAX ti with
          | error e =>
            rw [hexpr] at h
            exact absurd h (by simp)
          | ok r =>
            obtain ⟨eout, i3⟩ := r
            rw [hexpr] at h
            dsimp only at h
            cases ha1 : assertChar (whitespace i3) 41 "expect ‘)’ after ‘return’ statement\n" with
            | error e =>
              rw [ha1] at h
              exact absurd h (by simp)
            | ok i4 =>
              rw [ha1] at h
              dsimp only at h
              cases ha2 : assertChar (whitespace i4) 59 "expect ‘;’ after ‘return’ statement\n" with
              | error e =>
                rw [ha2] at h
                exact absurd h (by simp)
              | ok i5 =>
                rw [ha2] at h
                dsimp only at h
                cases h
                apply StmtInv_pure
                rw [labelsOf_append, expression_labels _ _ _ _ _ hexpr]
                rfl
        · rw [if_neg hsemi] at h
          cases h
          exact StmtInv_pure _ _ _ _ rfl
      rw [if_neg g2] at h
      by_cases g3 : buffer = "if"
      · rw [if_pos g3] at h
        cases hlp : assertChar (whitespace j) 40 "expect ‘(’ after ‘if’\n" with
        | error e =>
          rw [hlp] at h
          exact absurd h (by simp)
        | ok i3 =>
          rw [hlp] at h
          dsimp only at h
          cases hexpr : expression ws .RAX i3 with
          | error e =>
            rw [hexpr] at h
            exact absurd h (by simp)
          | ok r =>
            obtain ⟨eout, i4⟩ := r
            rw [hexpr] at h
            dsimp only at h
            cases hrp : assertChar (whitespace i4) 41 "expect ‘)’ after condition\n" with
            | error e =>
              rw [hrp] at h
              exact absurd h (by simp)
            | ok i5 =>
              rw [hrp] at h
              dsimp only at h
              cases hthen : statement n ws i5 fn (-1) [] (sid + 1) with
              | error e =>
                rw [hthen] at h
                exact absurd h (by simp)
              | ok rT =>
                obtain ⟨thenOut, i6, csT, sidT⟩ := rT
                rw [hthen] at h
                dsimp only at h
                have invT := ihS _ _ _ _ _ _ _ _ _ _ hthen
                have hE0 : ids5 eout = [] :=
                  ids5_eq_nil_of_labels (expression_labels _ _ _ _ _ hexpr)
                by_cases he : (elseMatch (whitespace i6)).1 = true
                · rw [if_pos he] at h
                  cases helse : statement n ws (elseMatch (whitespace i6)).2 fn (-1) [] sidT with
                  | error e =>
                    rw [helse] at h
                    exact absurd h (by simp)
                  | ok rE =>
                    obtain ⟨elseOut, i7, csE, sidE⟩ := rE
                    rw [helse] at h
                    dsimp only at h
                    have invE := ihS _ _ _ _ _ _ _ _ _ _ helse
                    cases h
                    refine ⟨by have := invT.1; have := invE.1; omega, ?_, ?_,
                      [], by simp, by simp⟩
                    · intro p hp
                      simp only [ids5_append, ids5_text, ids5_lelse, ids5_lend,
                        ids5_nil, hE0, List.nil_append, List.append_nil,
                        List.append_assoc, List.cons_append, List.mem_append,
                        List.mem_cons, List.not_mem_nil, or_false] at hp
                      have h1 := invT.1
                      have h2 := invE.1
                      rcases hp with hp | hp | hp | hp
                      · have := invT.2.1 p hp
                        constructor <;> omega
                      · subst hp
                        constructor <;> simp <;> omega
                      · have := invE.2.1 p hp
                        constructor <;> omega
                      · subst hp
                        constructor <;> simp <;> omega
                    · simp only [ids5_append, ids5_text, ids5_lelse, ids5_lend,
                        ids5_nil, hE0, List.nil_append, List.append_nil,
                        List.append_assoc, List.cons_append]
                      exact nodup_sand_if _ _ sid sidT sid2 invT.2.1 invE.2.1
                        invT.1 invT.2.2.1 invE.2.2.1
                · rw [if_neg he] at h
                  cases h
                  refine ⟨by have := invT.1; omega, ?_, ?_, [], by simp, by simp⟩
                  · intro p hp
                    simp only [ids5_append, ids5_text, ids5_lelse, ids5_lend,
                      ids5_nil, hE0, List.nil_append, List.append_nil,
                      List.append_assoc, List.cons_append, List.mem_append,
                      List.mem_cons, List.not_mem_nil, or_false] at hp
                    have h1 := invT.1
                    rcases hp with hp | hp | hp
                    · have := invT.2.1 p hp
                      constructor <;> omega
                    · subst hp
                      constructor <;> simp <;> omega
                    · subst hp
                      constructor <;> simp <;> omega
                  · have hnd := nodup_sand_if (ids5 thenOut) [] sid sid2 sid2
                      invT.2.1 (by simp) invT.1 invT.2.2.1 (by simp)
                    simp only [ids5_append, ids5_text, ids5_lelse, ids5_lend,
                      ids5_nil, hE0, List.nil_append, List.append_nil,
                      List.append_assoc, List.cons_append]
                    simpa using hnd
      rw [if_neg g3] at h
      by_cases g4 : buffer = "while"
      · rw [if_pos g4] at h
        cases hlp : assertChar (whitespace j) 40 "expect ‘(’ after ‘while’\n" with
        | error e =>
          rw [hlp] at h
          exact absurd h (by simp)
        | ok i3 =>
          rw [hlp] at h
          dsimp only at h
          cases hexpr : expression ws .RAX i3 with
          | error e =>
            rw [hexpr] at h
            exact absurd h (by simp)
          | ok r =>
            obtain ⟨eout, i4⟩ := r
            rw [hexpr] at h
            dsimp only at h
            cases hrp : assertChar (whitespace i4) 41 "expect ‘)’ after condition\n" with
            | error e =>
              rw [hrp] at h
              exact absurd h (by simp)
            | ok i5 =>
              rw [hrp] at h
              dsimp only at h
              cases hbody : statement n ws i5 fn (-1) [] (sid + 1) with
              | error e =>
                rw [hbody] at h
                exact absurd h (by simp)
              | ok rB =>
                obtain ⟨bodyOut, i6, csB, sidB⟩ := rB
                rw [hbody] at h
                dsimp only at h
                have invB := ihS _ _ _ _ _ _ _ _ _ _ hbody
                have hE0 : ids5 eout = [] :=
                  ids5_eq_nil_of_labels (expression_labels _ _ _ _ _ hexpr)
                cases h
                refine ⟨by have := invB.1; omega, ?_, ?_, [], by simp, by simp⟩
                · intro p hp
                  simp only [ids5_append, ids5_text, ids5_lstart, ids5_lend,
                    ids5_nil, hE0, List.nil_append, List.append_nil,
                    List.append_assoc, List.cons_append, List.mem_append,
                    List.mem_cons, List.not_mem_nil, or_false] at hp
                  have h1 := invB.1
                  rcases hp with hp | hp | hp
                  · subst hp
                    constructor <;> simp <;> omega
                  · have := invB.2.1 p hp
                    constructor <;> omega
                  · subst hp
                    constructor <;> simp <;> omega
                · simp only [ids5_append, ids5_text, ids5_lstart, ids5_lend,
                    ids5_nil, hE0, List.nil_append, List.append_nil,
                    List.append_assoc, List.cons_append]
                  exact nodup_sand_while _ sid sid2 invB.2.1 invB.2.2.1
      rw [if_neg g4] at h
      by_cases g5 : buffer = "switch"
      · rw [if_pos g5] at h
        cases hexpr : expression ws .RAX (whitespace j) with
        | error e =>
          rw [hexpr] at h
          exact absurd h (by simp)
        | ok r =>
          obtain ⟨eout, i3⟩ := r
          rw [hexpr] at h
          dsimp only at h
          cases hbody : statement n ws i3 fn sid [] (sid + 1) with
          | error e =>
            rw [hbody] at h
            exact absurd h (by simp)
          | ok rB =>
            obtain ⟨bodyOut, i4, vs, sidB⟩ := rB
            rw [hbody] at h
            dsimp only at h
            have invB := ihS _ _ _ _ _ _ _ _ _ _ hbody
            have hE0 : ids5 eout = [] :=
              ids5_eq_nil_of_labels (expression_labels _ _ _ _ _ hexpr)
            have hT0 : ids5 (switchTable sid vs) = [] :=
              ids5_eq_nil_of_labels (switchTable_labels sid vs)
            cases h
            refine ⟨by have := invB.1; omega, ?_, ?_, [], by simp, by simp⟩
            · intro p hp
              simp only [ids5_append, ids5_text, ids5_lstmts, ids5_lcmp,
                ids5_lend, ids5_nil, hE0, hT0, List.nil_append, List.append_nil,
                List.append_assoc, List.cons_append, List.mem_append,
                List.mem_cons, List.not_mem_nil, or_false] at hp
              have h1 := invB.1
              rcases hp with hp | hp | hp | hp
              · subst hp
                constructor <;> simp <;> omega
              · have := invB.2.1 p hp
                constructor <;> omega
              · subst hp
                constructor <;> simp <;> omega
              · subst hp
                constructor <;> simp <;> omega
            · simp only [ids5_append, ids5_text, ids5_lstmts, ids5_lcmp,
                ids5_lend, ids5_nil, hE0, hT0, List.nil_append, List.append_nil,
                List.append_assoc, List.cons_append]
              exact nodup_sand_switch _ sid sid2 invB.2.1 invB.2.2.1
      rw [if_neg g5] at h
      by_cases g6 : buffer = "case"
      · rw [if_pos g6] at h
        by_cases hsw : swid < 0
        · rw [if_pos hsw] at h
          exact absurd h (by simp)
        rw [if_neg hsw] at h
        generalize ht : fgetcChar (whitespace j) = tPair at h
        obtain ⟨tc, ti⟩ := tPair
        dsimp only at h
        by_cases hq : tc = 39
        · rw [if_pos hq] at h
          cases hch : character ws ti with
          | error e =>
            rw [hch] at h
            exact absurd h (by simp)
          | ok r =>
            obtain ⟨v, i3⟩ := r
            rw [hch] at h
            dsimp only at h
            exact StmtInv_mono_sid (ihC _ _ _ _ _ _ _ _ _ _ _ h)
        rw [if_neg hq] at h
        by_cases hd : isdigit tc
        · rw [if_pos hd] at h
          exact StmtInv_mono_sid (ihC _ _ _ _ _ _ _ _ _ _ _ h)
        · rw [if_neg hd] at h
          exact absurd h (by simp)
      rw [if_neg g6] at h
      generalize ht : fgetcChar (whitespace j) = tPair at h
      obtain ⟨tc, ti⟩ := tPair
      dsimp only at h
      by_cases hcol : tc = 58
      · rw [if_pos hcol] at h
        cases hbody : statement n ws ti fn swid cs sid with
        | error e =>
          rw [hbody] at h
          exact absurd h (by simp)
        | ok r =>
          obtain ⟨bodyOut, i3, cs3, sidB⟩ := r
          rw [hbody] at h
          dsimp only at h
          have invB := ihS _ _ _ _ _ _ _ _ _ _ hbody
          cases h
          refine ⟨invB.1, ?_, ?_, ?_⟩
          · intro p hp
            rw [ids5_llabel] at hp
            exact invB.2.1 p hp
          · rw [ids5_llabel]
            exact invB.2.2.1
          · obtain ⟨new, hnew, hlab⟩ := invB.2.2.2
            exact ⟨new, hnew, fun v hv => List.mem_cons_of_mem _ (hlab v hv)⟩
      · rw [if_neg hcol] at h
        exact absurd h (by simp)
    · -- caseTail
      intro ws v inp fn swid cs sid out inp2 cs2 sid2 h
      simp only [caseTail] at h
      split at h
      · exact absurd h (by simp)
      · split at h
        · exact absurd h (by simp)
        · split at h
          · exact absurd h (by simp)
          · rename_i bodyOut i2 cs3 sidB hbody
            have invB := ihS _ _ _ _ _ _ _ _ _ _ hbody
            cases h
            refine ⟨invB.1, ?_, ?_, ?_⟩
            · intro p hp
              rw [ids5_lcase] at hp
              exact invB.2.1 p hp
            · rw [ids5_lcase]
              exact invB.2.2.1
            · obtain ⟨new, hnew, hlab⟩ := invB.2.2.2
              refine ⟨v :: new, by simpa using hnew, ?_⟩
              intro w hw
              rcases List.mem_cons.1 hw with hw | hw
              · subst hw
                exact List.mem_cons_self _ _
              · exact List.mem_cons_of_mem _ (hlab w hw)
    · -- stmtSeq
      intro ws inp fn swid cs sid out inp2 cs2 sid2 h
      simp only [stmtSeq] at h
      split at h
      · cases h
        exact StmtInv_pure _ _ _ _ rfl
      · split at h
        · exact absurd h (by simp)
        · rename_i o1 i2 csM sidM h1
          split at h
          · exact absurd h (by simp)
          · rename_i o2 i3 cs3 sid3 h2
            have inv1 := ihS _ _ _ _ _ _ _ _ _ _ h1
            have inv2 := ihQ _ _ _ _ _ _ _ _ _ _ h2
            cases h
            refine ⟨by have := inv1.1; have := inv2.1; omega, ?_, ?_, ?_⟩
            · intro p hp
              rw [ids5_append] at hp
              rcases List.mem_append.1 hp with hp | hp
              · have := inv1.2.1 p hp
                have := inv2.1
                constructor <;> omega
              · have := inv2.2.1 p hp
                have := inv1.1
                constructor <;> omega
            · rw [ids5_append]
              rw [List.nodup_append]
              refine ⟨inv1.2.2.1, inv2.2.2.1, ?_⟩
              intro p hp1 hp2
              have q1 := inv1.2.1 p hp1
              have q2 := inv2.2.1 p hp2
              omega
            · obtain ⟨n1, hn1, hl1⟩ := inv1.2.2.2
              obtain ⟨n2, hn2, hl2⟩ := inv2.2.2.2
              refine ⟨n1 ++ n2, by simp [hn1, hn2], ?_⟩
              intro w hw
              rcases List.mem_append.1 hw with hw | hw
              · exact List.mem_append_left _ (hl1 w hw)
              · exact List.mem_append_right _ (hl2 w hw)

/-- Formats `%lu` and `%ld` render a nonnegative in-range long identically. -/
theorem unsStr_eq_sgnStr (x : Int) (h0 : 0 ≤ x) (h1 : x < 2 ^ 63) :
    unsStr x = sgnStr x := by
  unfold unsStr sgnStr
  have hx : x % 2 ^ 64 = x := Int.emod_eq_of_lt h0 (by omega)
  rw [hx]
  obtain ⟨m, rfl⟩ := Int.eq_ofNat_of_zero_le h0
  rfl

/-- Claim C2, counterexample: in
`switch 1 { case 18446744073709551614: ; }` the collected case value wraps
to -2; the body label is printed through `%ld.%ld` as `.L.case.0.-2` while
the dispatch-table jump target is printed through `%lu.%lu` as
`.L.case.0.18446744073709551614`, so the jump target string matches no
label emitted in the body. -/
theorem C2_counterexample :
    statement 60 8 (enc "switch 1 { case 18446744073709551614: ; }") "f" (-1) [] 0 =
      .ok ([Emit.text "  mov $1, %rax", .text "  jmp .L.cmp.0",
        .label (.lstmts 0), .label (.lcase 0 (-2)), .text "  jmp .L.end.0",
        .label (.lcmp 0), .text "  cmp $-2, %rax",
        .text "  je .L.case.0.18446744073709551614", .label (.lend 0)],
        [], [], 2) ∧
    (Label.lcase 0 (-2)).render = ".L.case.0.-2" ∧
    caseTarget 0 (-2) = ".L.case.0.18446744073709551614" ∧
    caseTarget 0 (-2) ≠ (Label.lcase 0 (-2)).render ∧
    labelsOf (stmtOut (statement 60 8
        (enc "switch 1 { case 18446744073709551614: ; }") "f" (-1) [] 0)) =
      [.lstmts 0, .lcase 0 (-2), .lcmp 0, .lend 0] := by
  exact ⟨by decide, by decide, by decide, by decide, by decide⟩

/-- Claim C2, amended: for a switch statement the dispatch table emitted
after the body contains exactly one `cmp`/`je` pair per collected case
value, in source order; for every collected value a case label with the
same (switch id, value) pair is emitted in the preceding body; and the
jump target string coincides with the rendered body label whenever the
value (and id) is nonnegative — the label prints the value signed while
the jump target prints it unsigned, so they diverge on wrapped negative
values. -/
theorem C2_switch_dispatch (fuel ws : Nat) (inp : Input) (fn : String)
    (swid : Int) (cs : List Int) (sid : Int) (c : Int) (i1 : Input) (n : Nat)
    (j : Input) (eout : List Emit) (i3 : Input) (bodyOut : List Emit)
    (i4 : Input) (vs : List Int) (sidB : Int)
    (h1 : fgetcChar (whitespace inp) = (c, i1))
    (ha : isalpha c)
    (hident : identifier (ungetc c i1) = (n, "switch", j))
    (hexpr : expression ws .RAX (whitespace j) = .ok (eout, i3))
    (hbody : statement fuel ws i3 fn sid [] (sid + 1) = .ok (bodyOut, i4, vs, sidB)) :
    statement (fuel + 1) ws inp fn swid cs sid =
      .ok (eout ++ [.text s!"  jmp .L.cmp.{sgnStr sid}", .label (.lstmts sid)] ++
        bodyOut ++ [.text s!"  jmp .L.end.{sgnStr sid}", .label (.lcmp sid)] ++
        switchTable sid vs ++ [.label (.lend sid)], i4, cs, sidB) ∧
    (∀ v ∈ vs, Emit.label (.lcase sid v) ∈ bodyOut) ∧
    (0 ≤ sid → sid < 2 ^ 63 → ∀ v ∈ vs, 0 ≤ v → v < 2 ^ 63 →
      caseTarget sid v = Label.render (.lcase sid v)) := by
  have hc1 : c ≠ 123 := by unfold isalpha at ha; omega
  have hc2 : c ≠ 59 := by unfold isalpha at ha; omega
  have e1 : (("switch" : String) = "goto") = False := by simp
  have e2 : (("switch" : String) = "return") = False := by simp
  have e3 : (("switch" : String) = "if") = False := by simp
  have e4 : (("switch" : String) = "while") = False := by simp
  have e5 : (("switch" : String) = "switch") = True := by simp
  refine ⟨?_, ?_, ?_⟩
  · simp only [statement, h1, if_neg hc1, if_neg hc2, if_pos ha, hident, e1, e2, e3, e4,
      e5, if_false, if_true, hexpr, hbody]
  · have inv := (stmt_inv fuel).1 _ _ _ _ _ _ _ _ _ _ hbody
    obtain ⟨new, hnew, hlab⟩ := inv.2.2.2
    simp only [List.nil_append] at hnew
    intro v hv
    exact hlab v (hnew ▸ hv)
  · intro hs0 hs1 v _ hv0 hv1
    simp only [caseTarget, Label.render]
    rw [unsStr_eq_sgnStr sid hs0 hs1, unsStr_eq_sgnStr v hv0 hv1]

/-- Witness for the amended C2 on `switch 1 { case 1: ; }`. -/
theorem C2_switch_dispatch_witness :
    statement 60 8 (enc "switch 1 { case 1: ; }") "f" (-1) [] 0 =
      .ok ([Emit.text "  mov $1, %rax"] ++
        [.text s!"  jmp .L.cmp.{sgnStr 0}", .label (.lstmts 0)] ++
        [.label (.lcase 0 1)] ++
        [.text s!"  jmp .L.end.{sgnStr 0}", .label (.lcmp 0)] ++
        switchTable 0 [1] ++ [.label (.lend 0)], [], [], 2) ∧
    (∀ v ∈ [(1 : Int)], Emit.label (.lcase 0 v) ∈ [Emit.label (.lcase 0 1)]) ∧
    (0 ≤ (0 : Int) → (0 : Int) < 2 ^ 63 → ∀ v ∈ [(1 : Int)], 0 ≤ v → v < 2 ^ 63 →
      caseTarget 0 v = Label.render (.lcase 0 v)) :=
  C2_switch_dispatch 59 8 (enc "switch 1 { case 1: ; }") "f" (-1) [] 0 115
    [119, 105, 116, 99, 104, 32, 49, 32, 123, 32, 99, 97, 115, 101, 32, 49, 58, 32, 59, 32, 125]
    6 [32, 49, 32, 123, 32, 99, 97, 115, 101, 32, 49, 58, 32, 59, 32, 125]
    [Emit.text "  mov $1, %rax"]
    [32, 123, 32, 99, 97, 115, 101, 32, 49, 58, 32, 59, 32, 125]
    [Emit.label (.lcase 0 1)] [] [1] 2
    (by decide) (by decide) (by decide) (by decide) (by decide)

/-- The map `labelsOf` ignores a leading text line. -/
theorem labelsOf_text (s : String) (l : List Emit) :
    labelsOf (.text s :: l) = labelsOf l := rfl

/-- A list of `.long` directives contains no labels. -/
theorem longs_labels (vs : List String) :
    labelsOf (vs.map (fun v => Emit.text s!"  .long {v}")) = [] := by
  induction vs with
  | nil => rfl
  | cons v t ih =>
    rw [List.map_cons, labelsOf_text]
    exact ih

/-- A successful initializer list has no id-family labels. -/
theorem ivalLoop_ids5 (fuel ws : Nat) (inp : Input) (out : List Emit)
    (rest : Input) (h : ivalLoop ws fuel inp = .ok (out, rest)) : ids5 out = [] := by
  obtain ⟨vs, hvs⟩ := ivalLoop_longs fuel ws inp out rest h
  subst hvs
  exact ids5_eq_nil_of_labels (longs_labels vs)

/-- The `.data` record header has no id-family labels. -/
theorem dataHeader_ids5 (ws : Int) (name : String) : ids5 (dataHeader ws name) = [] := rfl

/-- A global declaration emits no id-family labels. -/
theorem globalDecl_ids5 (ws fuel : Nat) (inp : Input) (name : String)
    (out : List Emit) (rest : Input)
    (h : globalDecl ws fuel inp name = .ok (out, rest)) : ids5 out = [] := by
  simp only [globalDecl] at h
  split at h
  · split at h
    · exact absurd h (by simp)
    · rename_i lout i2 heq
      cases h
      rw [ids5_append, dataHeader_ids5, ivalLoop_ids5 _ _ _ _ _ heq]
      rfl
  · cases h
    rfl

/-- A vector declaration emits no id-family labels. -/
theorem vector_ids5 (ws fuel : Nat) (inp : Input) (name : String)
    (out : List Emit) (rest : Input)
    (h : vector ws fuel inp name = .ok (out, rest)) : ids5 out = [] := by
  simp only [vector] at h
  split at h
  · exact absurd h (by simp)
  · rename_i num i3 heq0
    split at h
    · split at h
      · exact absurd h (by simp)
      · rename_i lout i4 heq
        cases h
        rw [ids5_append, dataHeader_ids5, ivalLoop_ids5 _ _ _ _ _ heq]
        rfl
    · split at h
      · cases h
        rfl
      · cases h
        rfl

/-- A function declaration advances the counter and emits distinct
id-family labels with ids allocated inside the call. -/
theorem functionDecl_inv (ws fuel : Nat) (inp : Input) (name : String)
    (sid : Int) (out : List Emit) (i2 : Input) (sid2 : Int)
    (h : functionDecl ws fuel inp name sid = .ok (out, i2, sid2)) :
    sid ≤ sid2 ∧ (∀ p ∈ ids5 out, sid ≤ p.2 ∧ p.2 < sid2) ∧ (ids5 out).Nodup := by
  simp only [functionDecl] at h
  split at h
  · exact absurd h (by simp)
  · split at h
    · exact absurd h (by simp)
    · rename_i body i3 csB sidB heq
      have inv := (stmt_inv fuel).1 _ _ _ _ _ _ _ _ _ _ heq
      cases h
      refine ⟨inv.1, ?_, ?_⟩
      · intro p hp
        simp only [ids5_append, ids5_text, ids5_sym, ids5_lreturn, ids5_nil,
          List.nil_append, List.append_nil] at hp
        exact inv.2.1 p hp
      · simp only [ids5_append, ids5_text, ids5_sym, ids5_lreturn, ids5_nil,
          List.nil_append, List.append_nil]
        exact inv.2.2.1

/-- The declaration loop advances the counter and emits distinct id-family
labels with ids in the consumed range. -/
theorem decls_inv (fuel : Nat) : ∀ (ws : Nat) (inp : Input) (sid : Int)
    (out : List Emit) (sid2 : Int),
    declarations ws fuel inp sid = .ok (out, sid2) →
    sid ≤ sid2 ∧ (∀ p ∈ ids5 out, sid ≤ p.2 ∧ p.2 < sid2) ∧ (ids5 out).Nodup := by
  induction fuel with
  | zero =>
    intro ws inp sid out sid2 h
    simp [declarations] at h
  | succ n ih =>
    intro ws inp sid out sid2 h
    simp only [declarations] at h
    split at h
    · split at h
      · -- function
        split at h
        · exact absurd h (by simp)
        · rename_i fout i2 sidF heqF
          split at h
          · exact absurd h (by simp)
          · rename_i rout sid3 heqR
            have invF := functionDecl_inv _ _ _ _ _ _ _ _ heqF
            have invR := ih _ _ _ _ _ heqR
            cases h
            refine ⟨by have := invF.1; have := invR.1; omega, ?_, ?_⟩
            · intro p hp
              simp only [ids5_append, ids5_text, ids5_nil, List.nil_append,
                List.append_nil, List.mem_append] at hp
              rcases hp with hp | hp
              · have := invF.2.1 p hp
                have := invR.1
                constructor <;> omega
              · have := invR.2.1 p hp
                have := invF.1
                constructor <;> omega
            · simp only [ids5_append, ids5_text, ids5_nil, List.nil_append,
                List.append_nil]
              rw [List.nodup_append]
              refine ⟨invF.2.2, invR.2.2, ?_⟩
              intro p hp1 hp2
              have q1 := invF.2.1 p hp1
              have q2 := invR.2.1 p hp2
              omega
      · split at h
        · -- vector
          split at h
          · exact absurd h (by simp)
          · rename_i vout i2 heqV
            split at h
            · exact absurd h (by simp)
            · rename_i rout sid3 heqR
              have hv := vector_ids5 _ _ _ _ _ _ heqV
              have invR := ih _ _ _ _ _ heqR
              cases h
              refine ⟨invR.1, ?_, ?_⟩
              · intro p hp
                simp only [ids5_append, ids5_text, ids5_nil, hv, List.nil_append,
                  List.append_nil] at hp
                exact invR.2.1 p hp
              · simp only [ids5_append, ids5_text, ids5_nil, hv, List.nil_append,
                  List.append_nil]
                exact invR.2.2
        · split at h
          · exact absurd h (by simp)
          · -- global
            split at h
            · exact absurd h (by simp)
            · rename_i gout i2 heqG
              split at h
              · exact absurd h (by simp)
              · rename_i rout sid3 heqR
                have hg := globalDecl_ids5 _ _ _ _ _ _ heqG
                have invR := ih _ _ _ _ _ heqR
                cases h
                refine ⟨invR.1, ?_, ?_⟩
                · intro p hp
                  simp only [ids5_append, ids5_text, ids5_nil, hg, List.nil_append,
                    List.append_nil] at hp
                  exact invR.2.1 p hp
                · simp only [ids5_append, ids5_text, ids5_nil, hg, List.nil_append,
                    List.append_nil]
                  exact invR.2.2
    · split at h
      · exact absurd h (by simp)
      · cases h
        exact ⟨le_refl _, by simp [ids5_nil], by simp [ids5_nil]⟩

/-- The id-family sublist of a label list is the `tagVal` image of the
family-0 filter. -/
theorem filterMap_tag5_eq (L : List Label) :
    L.filterMap tag5 = (L.filter (fun l => famOf l == 0)).map tagVal := by
  induction L with
  | nil => rfl
  | cons x t ih => cases x <;> simp [tag5, famOf, tagVal, List.filter_cons, ih]

/-- A list of labels is duplicate-free when each family is. -/
theorem nodup_of_fam_partition (L : List Label)
    (h : ∀ k : Nat, (L.filter (fun l => famOf l == k)).Nodup) : L.Nodup := by
  induction L with
  | nil => exact List.nodup_nil
  | cons x t ih =>
    rw [List.nodup_cons]
    constructor
    · intro hx
      have hk := h (famOf x)
      have hself : (famOf x == famOf x) = true := by simp
      rw [List.filter_cons, if_pos hself] at hk
      rw [List.nodup_cons] at hk
      exact hk.1 (List.mem_filter.2 ⟨hx, by simp⟩)
    · apply ih
      intro k
      have hk := h k
      by_cases hfx : (famOf x == k) = true
      · rw [List.filter_cons, if_pos hfx] at hk
        exact (List.nodup_cons.1 hk).2
      · rwa [List.filter_cons, if_neg hfx] at hk

/-- Full label uniqueness from the id-family invariant plus per-family
duplicate freedom of the user-dependent families. -/
theorem labelsOf_nodup_of_families (L : List Label)
    (h5 : (L.filterMap tag5).Nodup)
    (h1 : (L.filter (fun l => famOf l == 1)).Nodup)
    (h2 : (L.filter (fun l => famOf l == 2)).Nodup)
    (h3 : (L.filter (fun l => famOf l == 3)).Nodup)
    (h4 : (L.filter (fun l => famOf l == 4)).Nodup) : L.Nodup := by
  apply nodup_of_fam_partition
  intro k
  match k with
  | 0 =>
    rw [filterMap_tag5_eq] at h5
    exact List.Nodup.of_map tagVal h5
  | 1 => exact h1
  | 2 => exact h2
  | 3 => exact h3
  | 4 => exact h4
  | (m + 5) =>
    have hempty : L.filter (fun l => famOf l == (m + 5)) = [] := by
      rw [List.filter_eq_nil]
      intro a _
      cases a <;> simp [famOf] <;> omega
    rw [hempty]
    exact List.nodup_nil

/-- Claim C3, counterexample: the compiler accepts
`f(){switch 1{case 1:;case 1:;}}` (duplicate case values are not
detected) and emits the case label `.L.case.0.1:` twice, so not every
emitted label is unique. -/
theorem C3_counterexample :
    (declarations 8 40 (enc "f(){switch 1{case 1:;case 1:;}}") 0).isOk = true ∧
    ¬ (labelsOf (declOut
        (declarations 8 40 (enc "f(){switch 1{case 1:;case 1:;}}") 0))).Nodup := by
  exact ⟨by decide, by decide⟩

/-- Claim C3, amended: in any accepted compilation the labels of the five
statement-id forms (.L.else, .L.end, .L.start, .L.cmp, .L.stmts) are
pairwise distinct and distinct from every other label; the emitted labels
are globally unique provided the case labels, return labels, user goto
labels, and symbol labels are each duplicate-free — which the compiler
does not enforce (duplicate case values, user label names, or declared
names are accepted and emit duplicate labels). -/
theorem C3_label_uniqueness (ws fuel : Nat) (inp : Input) (sid : Int)
    (out : List Emit) (sid2 : Int)
    (h : declarations ws fuel inp sid = .ok (out, sid2))
    (hcase : ((labelsOf out).filter (fun l => famOf l == 1)).Nodup)
    (hret : ((labelsOf out).filter (fun l => famOf l == 2)).Nodup)
    (hlab : ((labelsOf out).filter (fun l => famOf l == 3)).Nodup)
    (hsym : ((labelsOf out).filter (fun l => famOf l == 4)).Nodup) :
    (labelsOf out).Nodup := by
  have inv := decls_inv fuel ws inp sid out sid2 h
  exact labelsOf_nodup_of_families _ inv.2.2 hcase hret hlab hsym

/-- Witness for the amended C3 on `f(){switch 1{case 1:;case 2:;}}`. -/
theorem C3_label_uniqueness_witness :
    (labelsOf (declOut
      (declarations 8 40 (enc "f(){switch 1{case 1:;case 2:;}}") 0))).Nodup :=
  C3_label_uniqueness 8 40 (enc "f(){switch 1{case 1:;case 2:;}}") 0
    (declOut (declarations 8 40 (enc "f(){switch 1{case 1:;case 2:;}}") 0)) 3
    (by rfl) (by decide) (by decide) (by decide) (by decide)

end BCause
